import Mathlib

/-!
# Verification of the OI grading core

A shallow embedding, in Lean 4, of the secure grading subsystem:

* `src/hud_controller/grading_server.py` — the Verdict Service
  (`normalize_output`, the `grade` endpoint);
* `src/hud_controller/checkers.py` — the checker registry
  (`default_checker`, `checker_pastele`, `checker_rez`,
  `checker_kolekcija`, `_count_distinct_in_intervals`, helpers);
* `src/hud_controller/oi_grading_runner.py` — the Grading Runner
  (`_normalize_output`, `_grade_via_api`, `_run_test_case`,
  `run_grading`, `_compile_cpp`).

Modelling conventions:

* Python strings are lists of characters (`PyStr`); Python string methods
  (`strip`, `rstrip`, `split`, `replace`, `join`) are translated as
  executable functions on `PyStr` over the ASCII whitespace class.
* Python `float` values are modelled as exact rationals (`ℚ`); decimal
  literals parse to their exact rational value.  Tolerance constants
  `1e-6`, `1e-9`, `1e-10` are the exact rationals they denote.
* Python exceptions are modelled with `Except`; the exception payloads
  are modelled structurally (which exception fired, with the offending
  data), not as rendered message text.
* Checker / server message strings built with f-strings are modelled as
  inductive values carrying the interpolated data, one constructor per
  textual template in the source.
* The 256×256×256 counting array in `checker_pastele` is modelled as the
  total map `ℤ×ℤ×ℤ → ℤ` it represents, with Python list-index semantics
  (negative indices wrap, out-of-range indices raise `IndexError`).
* Effects at the process / filesystem / network boundary (subprocess
  results, HTTP responses, stored files) are modelled as explicit
  environment data passed to the embedded functions.
-/

namespace OIGrading

/-- Python strings, modelled as lists of characters. -/
abbrev PyStr := List Char

/-- ASCII whitespace, as recognised by Python `str.strip` / `str.split`. -/
def isPyWs (c : Char) : Bool :=
  c = ' ' || c = '\t' || c = '\n' || c = '\r' || c = '\x0b' || c = '\x0c'

/-- Python `str.lstrip()`: drop leading whitespace. -/
def lstripWS (s : PyStr) : PyStr := s.dropWhile isPyWs

/-- Python `str.rstrip()`: drop trailing whitespace. -/
def rstripWS : PyStr → PyStr
  | [] => []
  | c :: rest =>
    let r := rstripWS rest
    if r = [] ∧ isPyWs c then [] else c :: r

/-- Python `str.strip()`: drop whitespace at both ends. -/
def pyStrip (s : PyStr) : PyStr := lstripWS (rstripWS s)

/-- Python `s.split("\n")`: split at every newline.  Never returns `[]`. -/
def splitNL : PyStr → List PyStr
  | [] => [[]]
  | c :: rest =>
    let r := splitNL rest
    if c = '\n' then [] :: r
    else (c :: r.headI) :: r.tail

/-- Python `"\n".join(lines)`. -/
def joinNL : List PyStr → PyStr
  | [] => []
  | [l] => l
  | l :: ls => l ++ '\n' :: joinNL ls

/-- Python `s.replace("\r\n", "\n")` (left-to-right, non-overlapping). -/
def replaceCRLF : PyStr → PyStr
  | [] => []
  | [c] => [c]
  | c₁ :: c₂ :: rest =>
    if c₁ = '\r' ∧ c₂ = '\n' then '\n' :: replaceCRLF rest
    else c₁ :: replaceCRLF (c₂ :: rest)

/-- The `while lines and not lines[-1]: lines.pop()` loop of
`normalize_output`: remove trailing empty lines. -/
def dropTrailingEmpty : List PyStr → List PyStr
  | [] => []
  | l :: rest =>
    let r := dropTrailingEmpty rest
    if r = [] ∧ l = [] then [] else l :: r

/-- `normalize_output` from `grading_server.py` (lines 38-50): normalise
line endings, right-trim each line, drop trailing empty lines, rejoin.
`oi_grading_runner.py` defines the identical function `_normalize_output`
(lines 201-213); see `runner_normalize_output` below. -/
def normalize_output (output : PyStr) : PyStr :=
  joinNL (dropTrailingEmpty ((splitNL (replaceCRLF output)).map rstripWS))

/-- `OIGradingRunner._normalize_output` (runner, lines 201-213), lifted to
Lean `String`: its body is character-for-character the same as the
server's `normalize_output`. -/
def runner_normalize_output (s : String) : String :=
  String.mk (normalize_output s.data)

/-- Python `s.split()` with no argument: split on runs of whitespace,
discarding leading/trailing runs (so no empty tokens). -/
def splitWS : PyStr → List PyStr
  | [] => []
  | c :: rest =>
    let r := splitWS rest
    if isPyWs c then r
    else
      match rest with
      | [] => [[c]]
      | d :: _ => if isPyWs d then [c] :: r else (c :: r.headI) :: r.tail

/-- The invariant satisfied by every line list produced inside
`normalize_output`: no embedded newlines, no trailing whitespace. -/
def GoodPiece (p : PyStr) : Prop :=
  '\n' ∉ p ∧ ∀ c, p.getLast? = some c → isPyWs c = false

/-! ## Canonical form of `s.strip().split("\n")` followed by per-line `strip()`

Every checker reads the expected output only through
`expected.strip().split("\n")` and per-line `.strip()`.  The lemmas below
show that this view of a string is unchanged by `normalize_output`. -/

/-- The per-line strip view of a string used by the checkers:
`[line.strip() for line in s.strip().split("\n")]`. -/
def strippedLines (s : PyStr) : List PyStr :=
  (splitNL (pyStrip s)).map pyStrip

/-- Replace the empty line list by the single empty line (splitting an
empty string yields one empty line). -/
def orEmptyLine (X : List PyStr) : List PyStr :=
  if X = [] then [[]] else X

/-- Drop leading empty lines. -/
def dropLeadingEmpty (X : List PyStr) : List PyStr :=
  X.dropWhile fun l => l.isEmpty

/-- Right-strip the last piece and drop whitespace-only trailing pieces:
the effect of `rstrip` on a newline-joined list, piece by piece. -/
def dropTrailWsPieces : List PyStr → List PyStr
  | [] => []
  | l :: rest =>
    let r := dropTrailWsPieces rest
    if r = [] then (if rstripWS l = [] then [] else [rstripWS l]) else l :: r

/-- All characters whitespace. -/
def allWs (l : PyStr) : Prop := ∀ c ∈ l, isPyWs c = true

/-! ## Numbers: Python `int()` and `float()` on decimal literals -/

/-- Python exceptions, modelled structurally. -/
inductive PyExn where
  | indexError
  | valueError (payload : PyStr)
  | unpackError
deriving DecidableEq, Repr

/-- Decimal digit value. -/
def digitVal? (c : Char) : Option Nat :=
  if '0' ≤ c ∧ c ≤ '9' then some (c.toNat - '0'.toNat) else none

def decDigitsAux : Nat → PyStr → Option Nat
  | acc, [] => some acc
  | acc, c :: rest =>
    match digitVal? c with
    | some d => decDigitsAux (10 * acc + d) rest
    | none => none

/-- A nonempty all-digit string, as a number. -/
def decDigits? : PyStr → Option Nat
  | [] => none
  | c :: rest => decDigitsAux 0 (c :: rest)

/-- Python `int(s)`: surrounding whitespace ignored, optional sign, decimal
digits; anything else raises `ValueError`.  (Underscore digit grouping is
not modelled.) -/
def pyInt (s : PyStr) : Except PyExn Int :=
  match pyStrip s with
  | '+' :: ds =>
    match decDigits? ds with
    | some n => .ok (n : Int)
    | none => .error (.valueError s)
  | '-' :: ds =>
    match decDigits? ds with
    | some n => .ok (-(n : Int))
    | none => .error (.valueError s)
  | ds =>
    match decDigits? ds with
    | some n => .ok (n : Int)
    | none => .error (.valueError s)

/-- Greedily take leading digits. -/
def takeDigits : PyStr → (List Nat × PyStr)
  | [] => ([], [])
  | c :: rest =>
    match digitVal? c with
    | some d =>
      let (ds, r) := takeDigits rest
      (d :: ds, r)
    | none => ([], c :: rest)

def natOfDigits (ds : List Nat) : Nat := ds.foldl (fun a d => 10 * a + d) 0

/-- Optional exponent part of a float literal. -/
def pyFloatExp (m : ℚ) : PyStr → Option ℚ
  | [] => some m
  | c :: r =>
    if c = 'e' ∨ c = 'E' then
      let sr : Int × PyStr :=
        match r with
        | '+' :: t => (1, t)
        | '-' :: t => (-1, t)
        | t => (1, t)
      let (ds, r3) := takeDigits sr.2
      if ds = [] ∨ r3 ≠ [] then none
      else some (m * (10 : ℚ) ^ (sr.1 * (natOfDigits ds : Int)))
    else none

/-- Unsigned decimal float literal: `digits [. digits] [exp]` or
`. digits [exp]`, with its exact rational value. -/
def pyFloatBody (s : PyStr) : Option ℚ :=
  let (ip, r1) := takeDigits s
  match r1 with
  | '.' :: r2 =>
    let (fp, r3) := takeDigits r2
    if ip = [] ∧ fp = [] then none
    else pyFloatExp
      ((natOfDigits ip : ℚ) + (natOfDigits fp : ℚ) / (10 : ℚ) ^ fp.length) r3
  | _ =>
    if ip = [] then none
    else pyFloatExp (natOfDigits ip : ℚ) r1

/-- Python `float(s)` on finite decimal literals, as the exact rational
value (`None` where `float()` raises `ValueError`; the special tokens
`inf`/`nan` are outside the model — IEEE doubles are modelled as exact
rationals throughout). -/
def pyFloat (s : PyStr) : Option ℚ :=
  match pyStrip s with
  | '+' :: t => pyFloatBody t
  | '-' :: t => (pyFloatBody t).map Neg.neg
  | t => pyFloatBody t

/-! ## `checkers.py` -/

/-- `_parse_floats` (checkers.py lines 21-27): split on whitespace and
parse every token as a float, `None` on any failure. -/
def _parse_floats (s : PyStr) : Option (List ℚ) :=
  (splitWS s).mapM pyFloat

/-- `_floats_equal` (checkers.py lines 30-32): `math.isclose` with
relative tolerance `1e-6` and absolute tolerance `1e-9`, i.e.
`|a-b| <= max(rel_tol * max(|a|, |b|), abs_tol)`. -/
def _floats_equal (a b : ℚ) (rel_tol : ℚ := 1/1000000)
    (abs_tol : ℚ := 1/1000000000) : Bool :=
  decide (|a - b| ≤ max (rel_tol * max |a| |b|) abs_tol)

/-- Checker messages: one constructor per message template in
`checkers.py`, carrying the interpolated values. -/
inductive Msg where
  | ok
  | lineCountMismatch (expected got : Nat)
  | tokenMismatch (line tok : Nat) (e a : ℚ)
  | lineMismatch (line : Nat) (e a : PyStr)
  | noOutput
  | invalidColorfulness (line0 : PyStr)
  | colorfulnessMismatch (expected got : Int)
  | notEnoughCrayons (k got : Int)
  | invalidCrayonFormat (line : Nat)
  | crayonOutOfRange (r g b : Int)
  | crayonNotAvailable (r g b : Int)
  | computedColorfulnessMismatch (computed claimed : Int)
  | invalidN (line0 : PyStr)
  | nMismatch (expected got : Int)
  | notEnoughCuts (n got : Int)
  | invalidCutFormat (line : Nat)
  | invalidCut (line : Nat)
  | endpointNotOnBoundary (cut : Nat) (x y : Int)
  | notEnoughPieces (pieces k : Int)
  | invalidAccesses (line0 : PyStr)
  | accessesMismatch (expected got : Int)
  | notEnoughIntervals (m got : Int)
  | invalidIntervalFormat (line : Nat)
  | invalidInterval (line : Nat)
  | intervalWrongLength (idx : Nat) (len k : Int)
  | intervalOutOfBounds (idx : Nat) (a b n : Int)
  | songNotInInterval (song a b : Int)
  | accessesCountMismatch (distinct claimed : Int)
  | checkerError (e : PyExn)
deriving DecidableEq, Repr

/-- A checker: `(problem_id, input, expected, actual) → (passed, message)`. -/
abbrev CheckerFunc := PyStr → PyStr → PyStr → PyStr → Bool × Msg

/-- First float-token mismatch under `_floats_equal`, with its index and
the two values (the inner loop of `default_checker`, lines 59-61). -/
def firstFloatMismatch : List ℚ → List ℚ → Nat → Option (Nat × ℚ × ℚ)
  | e :: es, a :: as2, j =>
    if _floats_equal e a then firstFloatMismatch es as2 (j + 1)
    else some (j, e, a)
  | _, _, _ => none

/-- The per-line loop of `default_checker` (lines 49-65): strip both
lines; if both parse as float lists of equal length compare with
tolerance, else compare the stripped strings. -/
def defaultCheckLines : List PyStr → List PyStr → Nat → Bool × Msg
  | [], _, _ => (true, Msg.ok)
  | _ :: _, [], _ => (true, Msg.ok)
  | el :: es, al :: as2, i =>
    let e2 := pyStrip el
    let a2 := pyStrip al
    match _parse_floats e2, _parse_floats a2 with
    | some ef, some af =>
      if ef.length = af.length then
        match firstFloatMismatch ef af 0 with
        | some (j, ev, av) => (false, Msg.tokenMismatch (i + 1) (j + 1) ev av)
        | none => defaultCheckLines es as2 (i + 1)
      else
        if e2 = a2 then defaultCheckLines es as2 (i + 1)
        else (false, Msg.lineMismatch (i + 1) e2 a2)
    | _, _ =>
      if e2 = a2 then defaultCheckLines es as2 (i + 1)
      else (false, Msg.lineMismatch (i + 1) e2 a2)

/-- `default_checker` (checkers.py lines 35-67). -/
def default_checker (problem_id input_data expected actual : PyStr) :
    Bool × Msg :=
  let expected_lines := splitNL (pyStrip expected)
  let actual_lines := splitNL (pyStrip actual)
  if expected_lines.length ≠ actual_lines.length then
    (false, Msg.lineCountMismatch expected_lines.length actual_lines.length)
  else defaultCheckLines expected_lines actual_lines 0

/-- Python list indexing with a nonnegative index (`IndexError` when out
of range). -/
def getIdx {α : Type} (l : List α) (i : Nat) : Except PyExn α :=
  match l.get? i with
  | some x => .ok x
  | none => .error .indexError

/-- Python index into a length-256 list: negative indices wrap,
out-of-range raises `IndexError`. -/
def pyIdx256 (i : Int) : Except PyExn Int :=
  if 0 ≤ i ∧ i < 256 then .ok i
  else if -256 ≤ i ∧ i < 0 then .ok (i + 256)
  else .error .indexError

/-- Pointwise update of the counting map. -/
def updCnt (cnt : Int × Int × Int → Int) (t : Int × Int × Int) (v : Int) :
    Int × Int × Int → Int :=
  fun u => if u = t then v else cnt u

/-- `r, g, b = map(int, parts)`: parse tokens left to right (lazily, as
Python unpacking of a `map` object does), then require exactly three. -/
def unpack3Int (toks : List PyStr) : Except PyExn (Int × Int × Int) :=
  match toks with
  | [t1, t2, t3] => do
    let v1 ← pyInt t1
    let v2 ← pyInt t2
    let v3 ← pyInt t3
    pure (v1, v2, v3)
  | [t1, t2] => do
    let _ ← pyInt t1
    let _ ← pyInt t2
    throw PyExn.unpackError
  | [t1] => do
    let _ ← pyInt t1
    throw PyExn.unpackError
  | [] => throw PyExn.unpackError
  | t1 :: t2 :: t3 :: t4 :: _ => do
    let _ ← pyInt t1
    let _ ← pyInt t2
    let _ ← pyInt t3
    let _ ← pyInt t4
    throw PyExn.unpackError

/-- `n, k = map(int, tokens)`: two-value unpack, like `unpack3Int`. -/
def unpack2Int (toks : List PyStr) : Except PyExn (Int × Int) :=
  match toks with
  | [t1, t2] => do
    let v1 ← pyInt t1
    let v2 ← pyInt t2
    pure (v1, v2)
  | [t1] => do
    let _ ← pyInt t1
    throw PyExn.unpackError
  | [] => throw PyExn.unpackError
  | t1 :: t2 :: t3 :: _ => do
    let _ ← pyInt t1
    let _ ← pyInt t2
    let _ ← pyInt t3
    throw PyExn.unpackError

/-- `int(lines[0].strip())`: the first-line integer parse used by the
custom checkers on the expected output. -/
def parseFirstLineInt (lines : List PyStr) : Except PyExn Int := do
  let e0 ← getIdx lines 0
  pyInt (pyStrip e0)

/-- The input-reading loop of `checker_pastele` (lines 90-92):
`for i in range(1, n+1)` over `input_lines`, counting each crayon in the
counting map (Python 256-list indexing on each coordinate). -/
def buildCount (lines : List PyStr) :
    Nat → Nat → (Int × Int × Int → Int) → Except PyExn (Int × Int × Int → Int)
  | _, 0, cnt => pure cnt
  | i, m + 1, cnt => do
    let l ← getIdx lines i
    let rgb ← unpack3Int (splitWS l)
    let ri ← pyIdx256 rgb.1
    let gi ← pyIdx256 rgb.2.1
    let bi ← pyIdx256 rgb.2.2
    buildCount lines (i + 1) m
      (updCnt cnt (ri, gi, bi) (cnt (ri, gi, bi) + 1))

/-- Running state of the `checker_pastele` output loop. -/
structure PasteleState where
  cnt : Int × Int × Int → Int
  min_r : Int
  max_r : Int
  min_g : Int
  max_g : Int
  min_b : Int
  max_b : Int

/-- The output loop of `checker_pastele` (lines 115-131): parse each
claimed crayon, check range and availability, consume one unit from the
counting map, track per-channel extents. -/
def pasteleLoop : List PyStr → Nat → PasteleState →
    Except PyExn (Sum Msg PasteleState)
  | [], _, st => pure (.inr st)
  | l :: rest, i, st =>
    match splitWS (pyStrip l) with
    | [p0, p1, p2] => do
      let r ← pyInt p0
      let g ← pyInt p1
      let b ← pyInt p2
      if 0 ≤ r ∧ r < 256 ∧ 0 ≤ g ∧ g < 256 ∧ 0 ≤ b ∧ b < 256 then
        if st.cnt (r, g, b) ≤ 0 then
          pure (.inl (Msg.crayonNotAvailable r g b))
        else
          pasteleLoop rest (i + 1)
            { cnt := updCnt st.cnt (r, g, b) (st.cnt (r, g, b) - 1)
              min_r := min st.min_r r, max_r := max st.max_r r
              min_g := min st.min_g g, max_g := max st.max_g g
              min_b := min st.min_b b, max_b := max st.max_b b }
      else
        pure (.inl (Msg.crayonOutOfRange r g b))
    | _ => pure (.inl (Msg.invalidCrayonFormat (i + 1)))

/-- Body of `checker_pastele` (lines 82-138), inside the `try`.  The
`for i in range(1, k+1)` loop over `actual_lines` is run on the slice
`(actual_lines.drop 1).take k.toNat`, which contains exactly the visited
lines because `len(actual_lines) >= k+1` was checked just before. -/
def pasteleBody (input_data expected actual : PyStr) :
    Except PyExn (Bool × Msg) := do
  let input_lines := splitNL (pyStrip input_data)
  let expected_lines := splitNL (pyStrip expected)
  let actual_lines := splitNL (pyStrip actual)
  let l0 ← getIdx input_lines 0
  let nk ← unpack2Int (splitWS l0)
  let cnt ← buildCount input_lines 1 nk.1.toNat (fun _ => 0)
  let expected_colorfulness ← parseFirstLineInt expected_lines
  if actual_lines.length < 1 then
    pure (false, Msg.noOutput)
  else do
    let a0 ← getIdx actual_lines 0
    match pyInt (pyStrip a0) with
    | .error (.valueError _) => pure (false, Msg.invalidColorfulness a0)
    | .error e => throw e
    | .ok actual_colorfulness =>
      if actual_colorfulness ≠ expected_colorfulness then
        pure (false,
          Msg.colorfulnessMismatch expected_colorfulness actual_colorfulness)
      else if (actual_lines.length : Int) < nk.2 + 1 then
        pure (false,
          Msg.notEnoughCrayons nk.2 ((actual_lines.length : Int) - 1))
      else do
        let res ← pasteleLoop ((actual_lines.drop 1).take nk.2.toNat) 1
          { cnt := cnt, min_r := 256, max_r := -1, min_g := 256, max_g := -1,
            min_b := 256, max_b := -1 }
        match res with
        | .inl m => pure (false, m)
        | .inr st =>
          let computed := max (st.max_r - st.min_r)
            (max (st.max_g - st.min_g) (st.max_b - st.min_b))
          if computed ≠ actual_colorfulness then
            pure (false,
              Msg.computedColorfulnessMismatch computed actual_colorfulness)
          else
            pure (true, Msg.ok)

/-- `checker_pastele` (checkers.py lines 70-141): the body with its
catch-all `except` returning a checker-error failure. -/
def checker_pastele (problem_id input_data expected actual : PyStr) :
    Bool × Msg :=
  match pasteleBody input_data expected actual with
  | .ok r => r
  | .error e => (false, Msg.checkerError e)

/-- The crayon triple a claimed-output line denotes, when it parses: the
line is stripped, split on whitespace into exactly three tokens, each an
`int` (the parse performed by the output loop of `checker_pastele`,
lines 116-119). -/
def crayonLineTriple (l : PyStr) : Option (Int × Int × Int) :=
  match splitWS (pyStrip l) with
  | [p0, p1, p2] =>
    match pyInt p0, pyInt p1, pyInt p2 with
    | .ok r, .ok g, .ok b => some (r, g, b)
    | _, _, _ => none
  | _ => none

/-- The colorfulness `checker_pastele` recomputes from the claimed crayons
(lines 112-135): the maximum per-channel extent difference, with the
sentinel initial extents 256 / -1 of the code. -/
def computedColorfulness (claimed : List (Int × Int × Int)) : Int :=
  let max_r := (claimed.map fun t => t.1).foldl max (-1)
  let min_r := (claimed.map fun t => t.1).foldl min 256
  let max_g := (claimed.map fun t => t.2.1).foldl max (-1)
  let min_g := (claimed.map fun t => t.2.1).foldl min 256
  let max_b := (claimed.map fun t => t.2.2).foldl max (-1)
  let min_b := (claimed.map fun t => t.2.2).foldl min 256
  max (max_r - min_r) (max (max_g - min_g) (max_b - min_b))

/-- A cut: `(x1, y1, x2, y2)`. -/
abbrev Cut := Int × Int × Int × Int

/-- `line_intersection` inside `checker_rez` (lines 208-225): intersection
point of the two supporting lines when the determinant is not nearly
zero and the point lies strictly inside the cake.  Cut coordinates are
integers, so the determinant is an integer; the division producing `t`
is exact rational arithmetic (the model of Python float arithmetic). -/
def line_intersection (cut1 cut2 : Cut) : Option (ℚ × ℚ) :=
  let x1 := cut1.1
  let y1 := cut1.2.1
  let x2 := cut1.2.2.1
  let y2 := cut1.2.2.2
  let x3 := cut2.1
  let y3 := cut2.2.1
  let x4 := cut2.2.2.1
  let y4 := cut2.2.2.2
  let denom : Int := (x1 - x2) * (y3 - y4) - (y1 - y2) * (x3 - x4)
  if |(denom : ℚ)| < (1 : ℚ) / 10000000000 then none
  else
    let t : ℚ := (((x1 - x3) * (y3 - y4) - (y1 - y3) * (x3 - x4) : Int) : ℚ)
      / (denom : ℚ)
    let px : ℚ := (x1 : ℚ) + t * ((x2 - x1 : Int) : ℚ)
    let py : ℚ := (y1 : ℚ) + t * ((y2 - y1 : Int) : ℚ)
    if -5000 < px ∧ px < 5000 ∧ -5000 < py ∧ py < 5000 then some (px, py)
    else none

/-- `on_boundary` inside `checker_rez` (lines 191-192). -/
def on_boundary (x y : Int) : Bool := decide (max |x| |y| = 5000)

/-- The cut-parsing loop of `checker_rez` (lines 180-188): each line must
split into exactly 4 tokens (else a format failure), each an `int` (else
an invalid-cut failure; the inner `try` catches the `ValueError`). -/
def rezParseCuts : List PyStr → Nat → Sum Msg (List Cut)
  | [], _ => .inr []
  | l :: rest, i =>
    match splitWS (pyStrip l) with
    | [t1, t2, t3, t4] =>
      match (do
        let v1 ← (pyInt t1).toOption
        let v2 ← (pyInt t2).toOption
        let v3 ← (pyInt t3).toOption
        let v4 ← (pyInt t4).toOption
        pure (v1, v2, v3, v4) : Option Cut) with
      | none => .inl (Msg.invalidCut (i + 1))
      | some c =>
        match rezParseCuts rest (i + 1) with
        | .inl m => .inl m
        | .inr cs => .inr (c :: cs)
    | _ => .inl (Msg.invalidCutFormat (i + 1))

/-- The boundary-check loop of `checker_rez` (lines 194-198). -/
def rezBoundaryViolation : List Cut → Nat → Option Msg
  | [], _ => none
  | c :: rest, i =>
    if ¬ on_boundary c.1 c.2.1 then
      some (Msg.endpointNotOnBoundary (i + 1) c.1 c.2.1)
    else if ¬ on_boundary c.2.2.1 c.2.2.2 then
      some (Msg.endpointNotOnBoundary (i + 1) c.2.2.1 c.2.2.2)
    else rezBoundaryViolation rest (i + 1)

/-- The pairwise intersection count of `checker_rez` (lines 227-231). -/
def countIntersections : List Cut → Nat
  | [] => 0
  | c :: rest =>
    rest.countP (fun c2 => (line_intersection c c2).isSome)
      + countIntersections rest

/-- Body of `checker_rez` (lines 152-238), inside the `try`.  As in
`pasteleBody`, the indexed loop over `actual_lines` runs on the length-
checked slice. -/
def rezBody (input_data expected actual : PyStr) :
    Except PyExn (Bool × Msg) := do
  let k ← pyInt (pyStrip input_data)
  let expected_lines := splitNL (pyStrip expected)
  let actual_lines := splitNL (pyStrip actual)
  let expected_n ← parseFirstLineInt expected_lines
  if actual_lines.length < 1 then
    pure (false, Msg.noOutput)
  else do
    let a0 ← getIdx actual_lines 0
    match pyInt (pyStrip a0) with
    | .error (.valueError _) => pure (false, Msg.invalidN a0)
    | .error e => throw e
    | .ok actual_n =>
      if actual_n ≠ expected_n then
        pure (false, Msg.nMismatch expected_n actual_n)
      else if (actual_lines.length : Int) < actual_n + 1 then
        pure (false, Msg.notEnoughCuts actual_n ((actual_lines.length : Int) - 1))
      else
        match rezParseCuts ((actual_lines.drop 1).take actual_n.toNat) 1 with
        | .inl m => pure (false, m)
        | .inr cuts =>
          match rezBoundaryViolation cuts 0 with
          | some m => pure (false, m)
          | none =>
            let pieces : Int := 1 + actual_n + (countIntersections cuts : Int)
            if pieces < k then pure (false, Msg.notEnoughPieces pieces k)
            else pure (true, Msg.ok)

/-- `checker_rez` (checkers.py lines 144-241). -/
def checker_rez (problem_id input_data expected actual : PyStr) :
    Bool × Msg :=
  match rezBody input_data expected actual with
  | .ok r => r
  | .error e => (false, Msg.checkerError e)

/-- The tuple order Python `sorted` uses on integer pairs
(lexicographic).  It is antisymmetric, so the sorted permutation of a
list is unique and `sorted(intervals)` is faithfully modelled by any
sorting algorithm; `List.insertionSort` is used because it is
structurally recursive. -/
def tupleLe (p q : Int × Int) : Prop :=
  p.1 < q.1 ∨ (p.1 = q.1 ∧ p.2 ≤ q.2)

instance : DecidableRel tupleLe := fun p q => by
  unfold tupleLe
  infer_instance

instance : IsTotal (Int × Int) tupleLe :=
  ⟨by
    intro a b
    unfold tupleLe
    omega⟩

instance : IsTrans (Int × Int) tupleLe :=
  ⟨by
    intro a b c
    unfold tupleLe
    omega⟩

/-- The interval-merging loop of `_count_distinct_in_intervals`
(lines 256-265), carrying the current `(curr_start, curr_end)`. -/
def mergeIntervals : Int × Int → List (Int × Int) → List (Int × Int)
  | (cs, ce), [] => [(cs, ce)]
  | (cs, ce), (s, e) :: rest =>
    if s ≤ ce + 1 then mergeIntervals (cs, max ce e) rest
    else (cs, ce) :: mergeIntervals (s, e) rest

/-- `sum(end - start + 1 for start, end in merged)` (line 268). -/
def sumLens (merged : List (Int × Int)) : Int :=
  (merged.map fun p => p.2 - p.1 + 1).sum

/-- `_count_distinct_in_intervals` (checkers.py lines 244-268). -/
def _count_distinct_in_intervals (intervals : List (Int × Int)) : Int :=
  if intervals = [] then 0
  else
    match List.insertionSort tupleLe intervals with
    | [] => 0
    | first :: rest => sumLens (mergeIntervals first rest)

/-- `for i in range(2, 2 + m): songs.append(int(input_lines[i].strip()))`
(checker_kolekcija, lines 291-293). -/
def readInts (lines : List PyStr) : Nat → Nat → Except PyExn (List Int)
  | _, 0 => pure []
  | i, m + 1 => do
    let l ← getIdx lines i
    let v ← pyInt (pyStrip l)
    let rest ← readInts lines (i + 1) m
    pure (v :: rest)

/-- The interval-parsing loop of `checker_kolekcija` (lines 316-324). -/
def kolekParseIntervals : List PyStr → Nat → Sum Msg (List (Int × Int))
  | [], _ => .inr []
  | l :: rest, i =>
    match splitWS (pyStrip l) with
    | [t1, t2] =>
      match (do
        let a ← (pyInt t1).toOption
        let b ← (pyInt t2).toOption
        pure (a, b) : Option (Int × Int)) with
      | none => .inl (Msg.invalidInterval (i + 1))
      | some ab =>
        match kolekParseIntervals rest (i + 1) with
        | .inl m => .inl m
        | .inr xs => .inr (ab :: xs)
    | _ => .inl (Msg.invalidIntervalFormat (i + 1))

/-- The validation loop of `checker_kolekcija` (lines 327-338), over
`zip(songs, intervals)`. -/
def kolekValidate : List Int → List (Int × Int) → Int → Int → Nat → Option Msg
  | song :: ss, (a, b) :: xs, k, n, i =>
    if b - a + 1 ≠ k then some (Msg.intervalWrongLength (i + 1) (b - a + 1) k)
    else if a < 1 ∨ b > n then some (Msg.intervalOutOfBounds (i + 1) a b n)
    else if ¬ (a ≤ song ∧ song ≤ b) then some (Msg.songNotInInterval song a b)
    else kolekValidate ss xs k n (i + 1)
  | _, _, _, _, _ => none

/-- Body of `checker_kolekcija` (lines 281-347), inside the `try`. -/
def kolekBody (input_data expected actual : PyStr) :
    Except PyExn (Bool × Msg) := do
  let input_lines := splitNL (pyStrip input_data)
  let expected_lines := splitNL (pyStrip expected)
  let actual_lines := splitNL (pyStrip actual)
  let l0 ← getIdx input_lines 0
  let first_line := splitWS l0
  let t0 ← getIdx first_line 0
  let n ← pyInt t0
  let t1 ← getIdx first_line 1
  let k ← pyInt t1
  let l1 ← getIdx input_lines 1
  let m ← pyInt (pyStrip l1)
  let songs ← readInts input_lines 2 m.toNat
  let expected_accesses ← parseFirstLineInt expected_lines
  if actual_lines.length < 1 then
    pure (false, Msg.noOutput)
  else do
    let a0 ← getIdx actual_lines 0
    match pyInt (pyStrip a0) with
    | .error (.valueError _) => pure (false, Msg.invalidAccesses a0)
    | .error e => throw e
    | .ok actual_accesses =>
      if actual_accesses ≠ expected_accesses then
        pure (false, Msg.accessesMismatch expected_accesses actual_accesses)
      else if (actual_lines.length : Int) < m + 1 then
        pure (false, Msg.notEnoughIntervals m ((actual_lines.length : Int) - 1))
      else
        match kolekParseIntervals ((actual_lines.drop 1).take m.toNat) 1 with
        | .inl msg => pure (false, msg)
        | .inr intervals =>
          match kolekValidate songs intervals k n 0 with
          | some msg => pure (false, msg)
          | none =>
            let distinct_count := _count_distinct_in_intervals intervals
            if distinct_count ≠ actual_accesses then
              pure (false,
                Msg.accessesCountMismatch distinct_count actual_accesses)
            else
              pure (true, Msg.ok)

/-- `checker_kolekcija` (checkers.py lines 271-350). -/
def checker_kolekcija (problem_id input_data expected actual : PyStr) :
    Bool × Msg :=
  match kolekBody input_data expected actual with
  | .ok r => r
  | .error e => (false, Msg.checkerError e)

/-- `CHECKER_REGISTRY` (checkers.py lines 354-358). -/
def CHECKER_REGISTRY : List (PyStr × CheckerFunc) :=
  [("pastele".data, checker_pastele),
   ("rez".data, checker_rez),
   ("kolekcija".data, checker_kolekcija)]

/-- `get_checker` (checkers.py lines 361-363): registry lookup with the
default checker as fallback. -/
def get_checker (problem_id : PyStr) : CheckerFunc :=
  match CHECKER_REGISTRY.find? (fun p => decide (p.1 = problem_id)) with
  | some p => p.2
  | none => default_checker

/-! ## `grading_server.py`: the `grade` endpoint -/

/-- A parsed `/grade` JSON body: `data.get("problem_id")`,
`data.get("test_id")`, `data.get("actual_output", "")`.  A missing or
empty JSON body is modelled as `none` at the request level. -/
structure GradeRequest where
  problem_id : Option PyStr
  test_id : Option PyStr
  actual_output : PyStr

/-- Result of looking up and reading one stored test file. -/
inductive FileRead where
  | missing
  | readError
  | content (s : PyStr)

/-- The protected test-data tree: `{GRADING_DIR}/inputs/{pid}/{tid}.txt`
and `{GRADING_DIR}/outputs/{pid}/{tid}.txt`. -/
structure FileStore where
  input : PyStr → PyStr → FileRead
  output : PyStr → PyStr → FileRead

/-- Messages of the `grade` endpoint, one constructor per template in
`grading_server.py`; `checkerError e` is the
`f"Checker error: {str(e)}"` response of the catch around the checker
call (lines 166-172). -/
inductive ServerMsg where
  | noJson
  | missingProblemId
  | missingTestId
  | testNotFound (test_id problem_id : PyStr)
  | expectedOutputNotFound (test_id : PyStr)
  | internalReadError
  | checker (m : Msg)
  | checkerError (e : PyExn)
  | internalServerError
deriving DecidableEq, Repr

/-- A `/grade` JSON response with its HTTP status code. -/
structure GradeResponse where
  status : Nat
  verdict : PyStr
  passed : Bool
  message : ServerMsg
deriving DecidableEq, Repr

/-- A checker as the server sees it: a call that may raise. -/
abbrev CheckerComp := PyStr → PyStr → PyStr → PyStr → Except PyExn (Bool × Msg)

/-- The registered checkers never raise out of their own `try` blocks;
`get_checker` therefore lifts to a non-raising `CheckerComp`. -/
def getCheckerComp (problem_id : PyStr) : CheckerComp :=
  fun p i e a => .ok (get_checker problem_id p i e a)

/-- The `grade` endpoint (grading_server.py lines 85-190), over an
arbitrary checker table (`grade` below instantiates it with
`get_checker`): request validation (400s), file lookup (404s), file
read (500 on failure), checker invocation with its catch-all, and the
`AC`/`WA` verdict.  Python truthiness of `data.get(...)` makes both a
missing and an empty `problem_id`/`test_id` a 400. -/
def gradeWith (checkerOf : PyStr → CheckerComp) (store : FileStore)
    (req : Option GradeRequest) : GradeResponse :=
  match req with
  | none => ⟨400, "WA".data, false, ServerMsg.noJson⟩
  | some data =>
    match data.problem_id with
    | none => ⟨400, "WA".data, false, ServerMsg.missingProblemId⟩
    | some pid =>
      if pid = [] then ⟨400, "WA".data, false, ServerMsg.missingProblemId⟩
      else
        match data.test_id with
        | none => ⟨400, "WA".data, false, ServerMsg.missingTestId⟩
        | some tid =>
          if tid = [] then ⟨400, "WA".data, false, ServerMsg.missingTestId⟩
          else
            match store.input pid tid, store.output pid tid with
            | .missing, _ =>
              ⟨404, "WA".data, false, ServerMsg.testNotFound tid pid⟩
            | _, .missing =>
              ⟨404, "WA".data, false, ServerMsg.expectedOutputNotFound tid⟩
            | .readError, _ =>
              ⟨500, "WA".data, false, ServerMsg.internalReadError⟩
            | _, .readError =>
              ⟨500, "WA".data, false, ServerMsg.internalReadError⟩
            | .content input_data, .content expected_output =>
              match checkerOf pid pid input_data expected_output
                  data.actual_output with
              | .error exn =>
                ⟨200, "WA".data, false, ServerMsg.checkerError exn⟩
              | .ok (passed, message) =>
                ⟨200, (if passed then "AC" else "WA").data, passed,
                  ServerMsg.checker message⟩

/-- The `grade` endpoint with the real checker registry. -/
def grade (store : FileStore) (req : Option GradeRequest) : GradeResponse :=
  gradeWith getCheckerComp store req

/-- The same store with every stored expected output replaced by its
normalized form. -/
def normalizeStoreOutputs (store : FileStore) : FileStore :=
  { store with
    output := fun pid tid =>
      match store.output pid tid with
      | .content e => .content (normalize_output e)
      | r => r }

/-! ## `oi_grading_runner.py`: the Grading Runner

Subprocess results, HTTP responses and filesystem lookups are modelled
as environment data.  Boundary message strings keep the template text;
interpolated paths/limits are elided where no claim depends on them. -/

/-- `TestResult` (runner lines 39-49). -/
structure TestResult where
  test_id : String
  passed : Bool
  status : String
  time_ms : ℚ
  stdout : PyStr
  stderr : String
  message : String
deriving DecidableEq, Repr

/-- `GradingResult` (runner lines 52-61). -/
structure GradingResult where
  score : ℚ
  passed : Nat
  total : Nat
  language : String
  test_results : List TestResult
  compilation_error : Option String
deriving DecidableEq, Repr

/-- What one `requests.post(…/grade)` call comes back with: a raised
`RequestException` (connection error / timeout), or a response with its
status code, content type, and the `passed` / `message` JSON fields. -/
inductive GradeApiOutcome where
  | exn (e : String)
  | response (status : Nat) (contentTypeJson : Bool)
      (passedField : Option Bool) (messageField : Option String)

/-- `_grade_via_api` (runner lines 215-246): 200 → the `passed` field
(default `False`); non-200 → failed with the JSON `message` when the
response is JSON, else an API-error message; a raised request exception
→ failed with a grading-server-error message. -/
def _grade_via_api (outcome : GradeApiOutcome) : Bool × String :=
  match outcome with
  | .exn e => (false, "Grading server error: " ++ e)
  | .response st ctJson passedF msgF =>
    if st = 200 then (passedF.getD false, msgF.getD "")
    else (false, (if ctJson then msgF else none).getD ("API error: " ++ toString st))

/-- What running the candidate on one test did. -/
inductive RunOutcome where
  | timeout
  | exn (e : String)
  | completed (exitCode : Int) (stdout : PyStr) (stderr : String) (elapsed : ℚ)

/-- Environment of one `_run_test_case` call: whether the local input
file exists, what the subprocess did, and what the grading API would
answer for each submitted output. -/
structure TestEnv where
  inputExists : Bool
  run : RunOutcome
  gradeApi : PyStr → GradeApiOutcome

/-- `_run_test_case` (runner lines 248-355): missing input → RE; timeout
→ TLE; spawn failure → RE; non-zero exit → RE; otherwise normalize
stdout, grade via the API, and produce AC or WA. -/
def _run_test_case (env : TestEnv) (test_id : String)
    (time_limit_seconds : ℚ) : TestResult :=
  if env.inputExists = false then
    { test_id := test_id, passed := false, status := "RE", time_ms := 0,
      stdout := [], stderr := "Input file not found",
      message := "Input file not found" }
  else
    match env.run with
    | .timeout =>
      { test_id := test_id, passed := false, status := "TLE",
        time_ms := time_limit_seconds * 1000, stdout := [],
        stderr := "Time limit exceeded", message := "Time limit exceeded" }
    | .exn e =>
      { test_id := test_id, passed := false, status := "RE", time_ms := 0,
        stdout := [], stderr := e, message := e }
    | .completed rc out err t =>
      if rc ≠ 0 then
        { test_id := test_id, passed := false, status := "RE",
          time_ms := t * 1000, stdout := out, stderr := err,
          message := "Runtime error (exit code " ++ toString rc ++ ")" }
      else
        let actual_output := normalize_output out
        let pm := _grade_via_api (env.gradeApi actual_output)
        if pm.1 then
          { test_id := test_id, passed := true, status := "AC",
            time_ms := t * 1000, stdout := out, stderr := err,
            message := pm.2 }
        else
          { test_id := test_id, passed := false, status := "WA",
            time_ms := t * 1000, stdout := out, stderr := err,
            message := pm.2 }

/-- What the `g++` invocation did. -/
inductive CompileEnv where
  | completed (exitCode : Int) (stderr : String)
  | timeout
  | exn (e : String)

/-- `_compile_cpp` (runner lines 108-139): non-zero compiler exit →
failure carrying the compiler's stderr (however empty); compile timeout
and spawn failure → failure with their message. -/
def _compile_cpp (env : CompileEnv) : Bool × String :=
  match env with
  | .completed rc err => if rc ≠ 0 then (false, err) else (true, "")
  | .timeout => (false, "Compilation timed out (>60s)")
  | .exn e => (false, e)

/-- Detected solution language (`_detect_solution`, C++ preferred). -/
inductive Lang where
  | cpp
  | python
deriving DecidableEq, Repr

/-- Environment of one grading pass. -/
structure RunnerEnv where
  problem_id : String
  time_limit_seconds : ℚ
  solution : Option Lang
  compile : CompileEnv
  test_cases : List String
  tests : String → TestEnv

/-- `run_grading` (runner lines 357-441): no solution → CE result;
C++ compile failure → CE result with the compiler diagnostic; no test
cases → CE result; otherwise run every test case in order and score
`passed/total`. -/
def run_grading (env : RunnerEnv) : GradingResult :=
  match env.solution with
  | none =>
    { score := 0, passed := 0, total := 0, language := "unknown",
      test_results := [],
      compilation_error := some ("No solution file found. Expected "
        ++ env.problem_id ++ ".cpp or " ++ env.problem_id ++ ".py") }
  | some lang =>
    let language := if lang = Lang.cpp then "cpp" else "python"
    let compileRes := if lang = Lang.cpp then _compile_cpp env.compile
      else (true, "")
    if compileRes.1 = false then
      { score := 0, passed := 0, total := 0, language := language,
        test_results := [], compilation_error := some compileRes.2 }
    else if env.test_cases = [] then
      { score := 0, passed := 0, total := 0, language := language,
        test_results := [],
        compilation_error := some ("No test cases found for problem "
          ++ env.problem_id) }
    else
      let test_results := env.test_cases.map fun tid =>
        _run_test_case (env.tests tid) tid env.time_limit_seconds
      let passed := (test_results.filter fun r => r.passed).length
      let total := env.test_cases.length
      { score := if total > 0 then (passed : ℚ) / (total : ℚ) else 0,
        passed := passed, total := total, language := language,
        test_results := test_results, compilation_error := none }

/-- A failed grading call: a raised request exception or a non-200
response. -/
def apiFails : GradeApiOutcome → Prop
  | .exn _ => True
  | .response st _ _ _ => st ≠ 200

/-! ## C8: the interval merge computes the cardinality of the union -/

/-- The set of song ids covered by one window. -/
def intervalSet (p : Int × Int) : Finset Int := Finset.Icc p.1 p.2

/-- The set of song ids covered by a list of windows. -/
def unionSet (L : List (Int × Int)) : Finset Int :=
  L.foldr (fun p s => intervalSet p ∪ s) ∅

/-! ## Basic lemmas about the string toolkit -/

theorem splitNL_ne_nil (s : PyStr) : splitNL s ≠ [] := by
  cases s with
  | nil => simp [splitNL]
  | cons c rest =>
    simp only [splitNL]
    split <;> simp

theorem cons_headI_tail {α : Type} [Inhabited α] {l : List α} (h : l ≠ []) :
    l.headI :: l.tail = l := by
  cases l with
  | nil => exact absurd rfl h
  | cons a t => rfl

theorem rstripWS_sublist (l : PyStr) : List.Sublist (rstripWS l) l := by
  induction l with
  | nil => simp [rstripWS]
  | cons c rest ih =>
    simp only [rstripWS]
    split
    · exact List.nil_sublist _
    · exact List.Sublist.cons₂ c ih

theorem rstripWS_idem (l : PyStr) : rstripWS (rstripWS l) = rstripWS l := by
  induction l with
  | nil => simp [rstripWS]
  | cons c rest ih =>
    simp only [rstripWS]
    split
    · simp [rstripWS]
    · rename_i hcond
      simp only [rstripWS, ih]
      rw [if_neg hcond]

theorem rstripWS_getLast?_not_ws (l : PyStr) :
    ∀ c, (rstripWS l).getLast? = some c → isPyWs c = false := by
  induction l with
  | nil => simp [rstripWS]
  | cons x rest ih =>
    intro c hc
    simp only [rstripWS] at hc
    split at hc
    · simp at hc
    · rename_i hcond
      rcases hr : rstripWS rest with _ | ⟨y, ys⟩
      · rw [hr] at hc hcond
        simp only [List.getLast?_singleton, Option.some.injEq] at hc
        cases hc
        simp only [true_and] at hcond
        simpa using hcond
      · rw [hr] at hc
        rw [List.getLast?_cons_cons] at hc
        exact ih c (hr ▸ hc)

theorem mem_dropTrailingEmpty {x : PyStr} {L : List PyStr}
    (h : x ∈ dropTrailingEmpty L) : x ∈ L := by
  induction L with
  | nil => simp [dropTrailingEmpty] at h
  | cons l rest ih =>
    simp only [dropTrailingEmpty] at h
    by_cases hcond : dropTrailingEmpty rest = [] ∧ l = []
    · rw [if_pos hcond] at h
      simp at h
    · rw [if_neg hcond] at h
      rcases List.mem_cons.mp h with h1 | h1
      · exact h1 ▸ List.mem_cons_self _ _
      · exact List.mem_cons_of_mem _ (ih h1)

theorem dropTrailingEmpty_idem (L : List PyStr) :
    dropTrailingEmpty (dropTrailingEmpty L) = dropTrailingEmpty L := by
  induction L with
  | nil => simp [dropTrailingEmpty]
  | cons l rest ih =>
    simp only [dropTrailingEmpty]
    split
    · simp [dropTrailingEmpty]
    · rename_i hcond
      simp only [dropTrailingEmpty, ih]
      rw [if_neg hcond]

theorem map_eq_self_of_mem {α : Type} {f : α → α} {l : List α}
    (h : ∀ x ∈ l, f x = x) : l.map f = l := by
  induction l with
  | nil => rfl
  | cons a t ih =>
    simp only [List.map_cons, h a (List.mem_cons_self a t),
      ih (fun x hx => h x (List.mem_cons_of_mem a hx))]

theorem headI_mem_of_ne_nil {α : Type} [Inhabited α] {l : List α}
    (h : l ≠ []) : l.headI ∈ l := by
  cases l with
  | nil => exact absurd rfl h
  | cons a t => exact List.mem_cons_self a t

theorem mem_splitNL_no_nl {s : PyStr} : ∀ {p : PyStr}, p ∈ splitNL s →
    '\n' ∉ p := by
  induction s with
  | nil =>
    intro p hp
    simp only [splitNL, List.mem_singleton] at hp
    subst hp
    simp
  | cons c rest ih =>
    intro p hp
    simp only [splitNL] at hp
    by_cases hc : c = '\n'
    · rw [if_pos hc] at hp
      rcases List.mem_cons.mp hp with hp | hp
      · subst hp; simp
      · exact ih hp
    · rw [if_neg hc] at hp
      rcases List.mem_cons.mp hp with hp | hp
      · subst hp
        intro hmem
        rcases List.mem_cons.mp hmem with heq | hmem2
        · exact hc heq.symm
        · exact ih (headI_mem_of_ne_nil (splitNL_ne_nil rest)) hmem2
      · have hpmem : p ∈ splitNL rest := by
          have hct := cons_headI_tail (splitNL_ne_nil rest)
          rw [← hct]
          exact List.mem_cons_of_mem _ hp
        exact ih hpmem

theorem replaceCRLF_cons_of_ne {c : Char} (hc : c ≠ '\r') (s : PyStr) :
    replaceCRLF (c :: s) = c :: replaceCRLF s := by
  cases s with
  | nil => rfl
  | cons d t =>
    simp only [replaceCRLF]
    rw [if_neg]
    intro hand
    exact hc hand.1

theorem replaceCRLF_append_piece {p : PyStr} (t : PyStr) (hnl : '\n' ∉ p)
    (hlast : ∀ c, p.getLast? = some c → isPyWs c = false) :
    replaceCRLF (p ++ t) = p ++ replaceCRLF t := by
  induction p with
  | nil => rfl
  | cons c p2 ih =>
    cases p2 with
    | nil =>
      have hcr : c ≠ '\r' := by
        intro hrc
        have hl := hlast c (by simp)
        rw [hrc] at hl
        simp [isPyWs] at hl
      show replaceCRLF (c :: t) = c :: replaceCRLF t
      exact replaceCRLF_cons_of_ne hcr t
    | cons c2 p3 =>
      have hc2 : c2 ≠ '\n' := by
        intro hq
        exact hnl (hq ▸ List.mem_cons_of_mem _ (List.mem_cons_self _ _))
      have hih := ih (fun hmem => hnl (List.mem_cons_of_mem _ hmem))
        (fun d hd => hlast d (by rw [List.getLast?_cons_cons]; exact hd))
      show replaceCRLF (c :: (c2 :: p3 ++ t)) = c :: c2 :: p3 ++ replaceCRLF t
      simp only [replaceCRLF]
      rw [if_neg (fun hand => hc2 hand.2)]
      show c :: replaceCRLF (c2 :: p3 ++ t) = c :: (c2 :: p3 ++ replaceCRLF t)
      rw [hih]

theorem replaceCRLF_joinNL_fixed {L : List PyStr} (h : ∀ p ∈ L, GoodPiece p) :
    replaceCRLF (joinNL L) = joinNL L := by
  induction L with
  | nil => rfl
  | cons p L2 ih =>
    cases L2 with
    | nil =>
      have hp := h p (List.mem_cons_self _ _)
      have h2 := replaceCRLF_append_piece [] hp.1 hp.2
      rw [List.append_nil] at h2
      show replaceCRLF p = p
      rw [h2]
      simp [replaceCRLF]
    | cons q L3 =>
      show replaceCRLF (p ++ '\n' :: joinNL (q :: L3))
        = p ++ '\n' :: joinNL (q :: L3)
      have hp := h p (List.mem_cons_self _ _)
      rw [replaceCRLF_append_piece _ hp.1 hp.2,
        replaceCRLF_cons_of_ne (by decide) _,
        ih (fun x hx => h x (List.mem_cons_of_mem _ hx))]

theorem splitNL_cons_nl (rest : PyStr) :
    splitNL ('\n' :: rest) = [] :: splitNL rest := by
  simp [splitNL]

theorem splitNL_cons_ne {c : Char} (hc : c ≠ '\n') (rest : PyStr) :
    splitNL (c :: rest)
      = (c :: (splitNL rest).headI) :: (splitNL rest).tail := by
  simp [splitNL, hc]

theorem splitNL_append_no_nl {p : PyStr} (t : PyStr) (hnl : '\n' ∉ p) :
    splitNL (p ++ t) = (p ++ (splitNL t).headI) :: (splitNL t).tail := by
  induction p with
  | nil =>
    simp only [List.nil_append]
    exact (cons_headI_tail (splitNL_ne_nil t)).symm
  | cons c p2 ih =>
    have hc : c ≠ '\n' := fun hq => hnl (hq ▸ List.mem_cons_self _ _)
    have hih := ih (fun hmem => hnl (List.mem_cons_of_mem _ hmem))
    show splitNL (c :: (p2 ++ t)) = _
    rw [splitNL_cons_ne hc, hih]
    simp

theorem splitNL_joinNL {L : List PyStr} (hnl : ∀ p ∈ L, '\n' ∉ p)
    (hne : L ≠ []) : splitNL (joinNL L) = L := by
  induction L with
  | nil => exact absurd rfl hne
  | cons p L2 ih =>
    cases L2 with
    | nil =>
      show splitNL (joinNL [p]) = [p]
      have hj : joinNL [p] = p := rfl
      rw [hj, ← List.append_nil p,
        splitNL_append_no_nl [] (by simpa using hnl p (List.mem_cons_self _ _))]
      simp [splitNL]
    | cons q L3 =>
      show splitNL (p ++ '\n' :: joinNL (q :: L3)) = p :: q :: L3
      rw [splitNL_append_no_nl _ (hnl p (List.mem_cons_self _ _)),
        splitNL_cons_nl, ih (fun x hx => hnl x (List.mem_cons_of_mem _ hx)) (by simp)]
      simp

theorem joinNL_splitNL (s : PyStr) : joinNL (splitNL s) = s := by
  induction s with
  | nil => rfl
  | cons c rest ih =>
    rcases h : splitNL rest with _ | ⟨l, ls⟩
    · exact absurd h (splitNL_ne_nil rest)
    · by_cases hc : c = '\n'
      · subst hc
        rw [splitNL_cons_nl, h]
        rw [h] at ih
        show '\n' :: joinNL (l :: ls) = '\n' :: rest
        rw [ih]
      · rw [splitNL_cons_ne hc, h]
        rw [h] at ih
        cases ls with
        | nil =>
          show c :: l = c :: rest
          have hjl : joinNL [l] = l := rfl
          rw [hjl] at ih
          rw [ih]
        | cons m ms =>
          show (c :: l) ++ '\n' :: joinNL (m :: ms) = c :: rest
          have hj : joinNL (l :: m :: ms) = l ++ '\n' :: joinNL (m :: ms) := rfl
          rw [hj] at ih
          simp only [List.cons_append]
          rw [ih]

/-! ## C5: idempotence of output normalization -/

theorem goodPiece_of_normalize (s : PyStr) :
    ∀ p ∈ dropTrailingEmpty ((splitNL (replaceCRLF s)).map rstripWS),
      GoodPiece p := by
  intro p hp
  have hp2 := mem_dropTrailingEmpty hp
  rcases List.mem_map.mp hp2 with ⟨q, hq, rfl⟩
  constructor
  · intro hmem
    exact mem_splitNL_no_nl hq ((rstripWS_sublist q).mem hmem)
  · exact rstripWS_getLast?_not_ws q

theorem normalize_output_map_rstrip (s : PyStr) :
    (dropTrailingEmpty ((splitNL (replaceCRLF s)).map rstripWS)).map rstripWS
      = dropTrailingEmpty ((splitNL (replaceCRLF s)).map rstripWS) := by
  apply map_eq_self_of_mem
  intro x hx
  rcases List.mem_map.mp (mem_dropTrailingEmpty hx) with ⟨q, _, rfl⟩
  exact rstripWS_idem q

theorem normalize_joinNL_fixed {L : List PyStr} (hgood : ∀ p ∈ L, GoodPiece p)
    (hmap : L.map rstripWS = L) (hdte : dropTrailingEmpty L = L) :
    normalize_output (joinNL L) = joinNL L := by
  rcases hL : L with _ | ⟨p, L2⟩
  · rfl
  · rw [← hL]
    unfold normalize_output
    rw [replaceCRLF_joinNL_fixed hgood,
      splitNL_joinNL (fun q hq => (hgood q hq).1) (by rw [hL]; simp),
      hmap, hdte]

theorem normalize_output_normalize_output (s : PyStr) :
    normalize_output (normalize_output s) = normalize_output s :=
  normalize_joinNL_fixed (goodPiece_of_normalize s)
    (normalize_output_map_rstrip s)
    (dropTrailingEmpty_idem _)

theorem rstripWS_eq_nil_iff {l : PyStr} : rstripWS l = [] ↔ allWs l := by
  induction l with
  | nil => simp [rstripWS, allWs]
  | cons c rest ih =>
    simp only [rstripWS]
    constructor
    · intro h
      by_cases hcond : rstripWS rest = [] ∧ isPyWs c
      · intro x hx
        rcases List.mem_cons.mp hx with hx | hx
        · exact hx ▸ hcond.2
        · exact ih.mp hcond.1 x hx
      · rw [if_neg hcond] at h
        exact absurd h (List.cons_ne_nil _ _)
    · intro h
      have hc : isPyWs c = true := h c (List.mem_cons_self _ _)
      have hrest : rstripWS rest = [] :=
        ih.mpr fun x hx => h x (List.mem_cons_of_mem _ hx)
      rw [if_pos ⟨hrest, hc⟩]

theorem lstripWS_eq_nil_iff {l : PyStr} : lstripWS l = [] ↔ allWs l := by
  unfold lstripWS
  rw [List.dropWhile_eq_nil_iff]
  constructor
  · intro h x hx
    exact h x hx
  · intro h x hx
    exact h x hx

theorem allWs_of_sublist {l m : PyStr} (h : List.Sublist l m) (hm : allWs m) :
    allWs l := fun c hc => hm c (h.mem hc)

theorem pyStrip_eq_nil_iff {l : PyStr} : pyStrip l = [] ↔ allWs l := by
  unfold pyStrip
  rw [lstripWS_eq_nil_iff]
  constructor
  · intro h
    have : rstripWS (rstripWS l) = [] := rstripWS_eq_nil_iff.mpr h
    rw [rstripWS_idem] at this
    exact rstripWS_eq_nil_iff.mp this
  · intro h
    exact allWs_of_sublist (rstripWS_sublist l) h

theorem pyStrip_rstripWS (l : PyStr) : pyStrip (rstripWS l) = pyStrip l := by
  unfold pyStrip
  rw [rstripWS_idem]

theorem rstripWS_eq_nil_iff_pyStrip {l : PyStr} :
    rstripWS l = [] ↔ pyStrip l = [] := by
  rw [rstripWS_eq_nil_iff, pyStrip_eq_nil_iff]

theorem rstripWS_cons_congr {h1 h2 : PyStr} (c : Char)
    (h : rstripWS h1 = rstripWS h2) :
    rstripWS (c :: h1) = rstripWS (c :: h2) := by
  simp only [rstripWS, h]

theorem pyStrip_cons_ws {c : Char} (hw : isPyWs c = true) (l : PyStr) :
    pyStrip (c :: l) = pyStrip l := by
  unfold pyStrip
  simp only [rstripWS]
  by_cases hr : rstripWS l = []
  · rw [if_pos ⟨hr, hw⟩, hr]
  · rw [if_neg (fun hand => hr hand.1)]
    unfold lstripWS
    rw [List.dropWhile_cons, if_pos hw]

theorem pyStrip_cons_not_ws {c : Char} (hw : ¬ isPyWs c = true) (l : PyStr) :
    pyStrip (c :: l) = c :: rstripWS l := by
  unfold pyStrip
  simp only [rstripWS]
  rw [if_neg (fun hand => hw hand.2)]
  unfold lstripWS
  rw [List.dropWhile_cons, if_neg hw]

theorem dropTrailingEmpty_eq_nil_iff {X : List PyStr} :
    dropTrailingEmpty X = [] ↔ ∀ x ∈ X, x = [] := by
  induction X with
  | nil => simp [dropTrailingEmpty]
  | cons l rest ih =>
    simp only [dropTrailingEmpty]
    constructor
    · intro h
      by_cases hcond : dropTrailingEmpty rest = [] ∧ l = []
      · intro x hx
        rcases List.mem_cons.mp hx with hx | hx
        · exact hx ▸ hcond.2
        · exact ih.mp hcond.1 x hx
      · rw [if_neg hcond] at h
        exact absurd h (List.cons_ne_nil _ _)
    · intro h
      exact if_pos ⟨ih.mpr fun x hx => h x (List.mem_cons_of_mem _ hx),
        h l (List.mem_cons_self _ _)⟩

theorem dropTrailWsPieces_eq_nil_iff {X : List PyStr} :
    dropTrailWsPieces X = [] ↔ ∀ x ∈ X, rstripWS x = [] := by
  induction X with
  | nil => simp [dropTrailWsPieces]
  | cons l rest ih =>
    simp only [dropTrailWsPieces]
    constructor
    · intro h
      by_cases hr : dropTrailWsPieces rest = []
      · rw [if_pos hr] at h
        by_cases hl : rstripWS l = []
        · intro x hx
          rcases List.mem_cons.mp hx with hx | hx
          · exact hx ▸ hl
          · exact ih.mp hr x hx
        · rw [if_neg hl] at h
          exact absurd h (List.cons_ne_nil _ _)
      · rw [if_neg hr] at h
        exact absurd h (List.cons_ne_nil _ _)
    · intro h
      rw [if_pos (ih.mpr fun x hx => h x (List.mem_cons_of_mem _ hx)),
        if_pos (h l (List.mem_cons_self _ _))]

theorem mem_dropTrailWsPieces {x : PyStr} {X : List PyStr}
    (hx : x ∈ dropTrailWsPieces X) :
    x ∈ X ∨ ∃ y ∈ X, x = rstripWS y := by
  induction X with
  | nil => simp [dropTrailWsPieces] at hx
  | cons l rest ih =>
    simp only [dropTrailWsPieces] at hx
    by_cases hr : dropTrailWsPieces rest = []
    · rw [if_pos hr] at hx
      by_cases hl : rstripWS l = []
      · rw [if_pos hl] at hx
        simp at hx
      · rw [if_neg hl] at hx
        rcases List.mem_singleton.mp hx with rfl
        exact Or.inr ⟨l, List.mem_cons_self _ _, rfl⟩
    · rw [if_neg hr] at hx
      rcases List.mem_cons.mp hx with hx | hx
      · exact Or.inl (hx ▸ List.mem_cons_self _ _)
      · rcases ih hx with hy | ⟨y, hy, hxy⟩
        · exact Or.inl (List.mem_cons_of_mem _ hy)
        · exact Or.inr ⟨y, List.mem_cons_of_mem _ hy, hxy⟩

theorem rstripWS_append (a b : PyStr) :
    rstripWS (a ++ b)
      = if rstripWS b = [] then rstripWS a else a ++ rstripWS b := by
  induction a with
  | nil =>
    by_cases hb : rstripWS b = []
    · simp [hb, rstripWS]
    · simp [hb]
  | cons c a2 ih =>
    show rstripWS (c :: (a2 ++ b)) = _
    simp only [rstripWS, ih]
    by_cases hb : rstripWS b = []
    · rw [if_pos hb]
      simp only [if_pos hb]
    · rw [if_neg hb]
      simp only [if_neg hb]
      have hne : (a2 ++ rstripWS b : PyStr) ≠ [] := by
        intro h
        exact hb (List.append_eq_nil.mp h).2
      rw [if_neg (fun hand => hne hand.1)]
      simp

theorem dropTrailWsPieces_cons (l : PyStr) (rest : List PyStr) :
    dropTrailWsPieces (l :: rest)
      = if dropTrailWsPieces rest = [] then
          (if rstripWS l = [] then [] else [rstripWS l])
        else l :: dropTrailWsPieces rest := rfl

theorem dropTrailWsPieces_singleton_ne_nil {X : List PyStr} :
    ∀ {y : PyStr}, dropTrailWsPieces X = [y] → y ≠ [] := by
  induction X with
  | nil =>
    intro y h
    simp [dropTrailWsPieces] at h
  | cons l rest ih =>
    intro y h
    rw [dropTrailWsPieces_cons] at h
    by_cases hr : dropTrailWsPieces rest = []
    · rw [if_pos hr] at h
      by_cases hl : rstripWS l = []
      · rw [if_pos hl] at h
        exact absurd h.symm (List.cons_ne_nil _ _)
      · rw [if_neg hl] at h
        have h1 := (List.cons.injEq _ _ _ _).mp h
        intro habs
        exact hl (h1.1.trans habs)
    · rw [if_neg hr] at h
      have h2 := (List.cons.injEq _ _ _ _).mp h
      exact absurd h2.2 hr

theorem joinNL_dropTrailWsPieces_ne_nil {X : List PyStr} {y : PyStr}
    {ys : List PyStr} (h : dropTrailWsPieces X = y :: ys) :
    joinNL (y :: ys) ≠ [] := by
  cases ys with
  | cons m ms =>
    show (y ++ '\n' :: joinNL (m :: ms) : PyStr) ≠ []
    intro habs
    have h2 := (List.append_eq_nil.mp habs).2
    exact absurd h2 (List.cons_ne_nil _ _)
  | nil =>
    show y ≠ []
    exact dropTrailWsPieces_singleton_ne_nil h

theorem rstripWS_joinNL (L : List PyStr) :
    rstripWS (joinNL L) = joinNL (dropTrailWsPieces L) := by
  induction L with
  | nil => rfl
  | cons l rest ih =>
    cases rest with
    | nil =>
      show rstripWS l = joinNL (dropTrailWsPieces [l])
      rw [dropTrailWsPieces_cons]
      rw [if_pos (show dropTrailWsPieces ([] : List PyStr) = [] from rfl)]
      by_cases hl : rstripWS l = []
      · rw [if_pos hl]
        exact hl
      · rw [if_neg hl]
        rfl
    | cons m ms =>
      show rstripWS (l ++ '\n' :: joinNL (m :: ms)) = _
      rw [rstripWS_append]
      by_cases hr : dropTrailWsPieces (m :: ms) = []
      · have hjr : rstripWS (joinNL (m :: ms)) = [] := by
          rw [ih, hr]
          rfl
        have hnl : rstripWS ('\n' :: joinNL (m :: ms)) = [] := by
          show (if rstripWS (joinNL (m :: ms)) = [] ∧ isPyWs '\n'
            then [] else '\n' :: rstripWS (joinNL (m :: ms))) = []
          rw [if_pos ⟨hjr, by decide⟩]
        rw [if_pos hnl, dropTrailWsPieces_cons, if_pos hr]
        by_cases hl : rstripWS l = []
        · rw [if_pos hl]
          exact hl
        · rw [if_neg hl]
          rfl
      · rcases hT : dropTrailWsPieces (m :: ms) with _ | ⟨y, ys⟩
        · exact absurd hT hr
        · have hjne : joinNL (y :: ys) ≠ [] := joinNL_dropTrailWsPieces_ne_nil hT
          have hjr : rstripWS (joinNL (m :: ms)) ≠ [] := by
            rw [ih, hT]
            exact hjne
          have hnl : rstripWS ('\n' :: joinNL (m :: ms))
              = '\n' :: rstripWS (joinNL (m :: ms)) := by
            show (if rstripWS (joinNL (m :: ms)) = [] ∧ isPyWs '\n'
              then [] else '\n' :: rstripWS (joinNL (m :: ms))) = _
            rw [if_neg (fun hand => hjr hand.1)]
          rw [if_neg (by rw [hnl]; exact List.cons_ne_nil _ _),
            dropTrailWsPieces_cons, if_neg hr]
          show l ++ rstripWS ('\n' :: joinNL (m :: ms))
            = joinNL (l :: dropTrailWsPieces (m :: ms))
          rw [hnl, ih, hT]
          rfl

theorem dropTrailingEmpty_cons (l : PyStr) (rest : List PyStr) :
    dropTrailingEmpty (l :: rest)
      = if dropTrailingEmpty rest = [] ∧ l = [] then []
        else l :: dropTrailingEmpty rest := rfl

theorem dropLeadingEmpty_cons_empty (X : List PyStr) :
    dropLeadingEmpty ([] :: X) = dropLeadingEmpty X := rfl

theorem dropLeadingEmpty_cons_ne {x : PyStr} (h : x ≠ []) (X : List PyStr) :
    dropLeadingEmpty (x :: X) = x :: X := by
  cases x with
  | nil => exact absurd rfl h
  | cons a t => rfl

theorem map_pyStrip_dropTrailingEmpty {X : List PyStr}
    (h : ∀ x ∈ X, (pyStrip x = [] ↔ x = [])) :
    (dropTrailingEmpty X).map pyStrip = dropTrailingEmpty (X.map pyStrip) := by
  induction X with
  | nil => rfl
  | cons l rest ih =>
    have hl := h l (List.mem_cons_self _ _)
    have ih2 := ih fun x hx => h x (List.mem_cons_of_mem _ hx)
    rw [dropTrailingEmpty_cons]
    show _ = dropTrailingEmpty (pyStrip l :: rest.map pyStrip)
    rw [dropTrailingEmpty_cons]
    by_cases hc : dropTrailingEmpty rest = [] ∧ l = []
    · rw [if_pos hc]
      have c2 : dropTrailingEmpty (rest.map pyStrip) = [] ∧ pyStrip l = [] := by
        constructor
        · rw [← ih2, hc.1]
          rfl
        · rw [hc.2]
          rfl
      rw [if_pos c2]
      rfl
    · rw [if_neg hc]
      have c2 : ¬ (dropTrailingEmpty (rest.map pyStrip) = [] ∧ pyStrip l = []) := by
        intro hand
        apply hc
        constructor
        · have hmap : (dropTrailingEmpty rest).map pyStrip = [] := by
            rw [ih2]
            exact hand.1
          exact List.map_eq_nil_iff.mp hmap
        · exact hl.mp hand.2
      rw [if_neg c2]
      show pyStrip l :: (dropTrailingEmpty rest).map pyStrip
        = pyStrip l :: dropTrailingEmpty (rest.map pyStrip)
      rw [ih2]

theorem map_pyStrip_dropTrailWsPieces (X : List PyStr) :
    (dropTrailWsPieces X).map pyStrip
      = dropTrailingEmpty (X.map pyStrip) := by
  induction X with
  | nil => rfl
  | cons l rest ih =>
    rw [dropTrailWsPieces_cons]
    show _ = dropTrailingEmpty (pyStrip l :: rest.map pyStrip)
    rw [dropTrailingEmpty_cons]
    by_cases hr : dropTrailWsPieces rest = []
    · rw [if_pos hr]
      have hmap : dropTrailingEmpty (rest.map pyStrip) = [] := by
        rw [← ih, hr]
        rfl
      by_cases hl : rstripWS l = []
      · have hsl : pyStrip l = [] := rstripWS_eq_nil_iff_pyStrip.mp hl
        rw [if_pos hl, if_pos ⟨hmap, hsl⟩]
        rfl
      · have hsl : ¬ pyStrip l = [] := fun hq =>
          hl (rstripWS_eq_nil_iff_pyStrip.mpr hq)
        rw [if_neg hl, if_neg (fun hand => hsl hand.2)]
        show [pyStrip (rstripWS l)] = pyStrip l :: dropTrailingEmpty (rest.map pyStrip)
        rw [pyStrip_rstripWS, hmap]
    · rw [if_neg hr]
      have hmapne : dropTrailingEmpty (rest.map pyStrip) ≠ [] := by
        rw [← ih]
        intro habs
        exact hr (List.map_eq_nil_iff.mp habs)
      rw [if_neg (fun hand => hmapne hand.1)]
      show pyStrip l :: (dropTrailWsPieces rest).map pyStrip
        = pyStrip l :: dropTrailingEmpty (rest.map pyStrip)
      rw [ih]

theorem map_pyStrip_splitNL_lstrip (t : PyStr) :
    (splitNL (lstripWS t)).map pyStrip
      = orEmptyLine (dropLeadingEmpty ((splitNL t).map pyStrip)) := by
  induction t with
  | nil => rfl
  | cons c rest ih =>
    by_cases hw : isPyWs c = true
    · have hls : lstripWS (c :: rest) = lstripWS rest := by
        unfold lstripWS
        rw [List.dropWhile_cons, if_pos hw]
      rw [hls, ih]
      congr 1
      by_cases hc : c = '\n'
      · subst hc
        rw [splitNL_cons_nl]
        show dropLeadingEmpty ((splitNL rest).map pyStrip)
          = dropLeadingEmpty (pyStrip [] :: (splitNL rest).map pyStrip)
        rw [show pyStrip ([] : PyStr) = [] from rfl, dropLeadingEmpty_cons_empty]
      · rcases hsl : splitNL rest with _ | ⟨h1, t1⟩
        · exact absurd hsl (splitNL_ne_nil rest)
        · rw [splitNL_cons_ne hc, hsl]
          show dropLeadingEmpty (pyStrip h1 :: t1.map pyStrip)
            = dropLeadingEmpty (pyStrip (c :: h1) :: t1.map pyStrip)
          rw [pyStrip_cons_ws hw]
    · have hc : c ≠ '\n' := by
        intro hq
        rw [hq] at hw
        exact hw (by decide)
      have hls : lstripWS (c :: rest) = c :: rest := by
        unfold lstripWS
        rw [List.dropWhile_cons, if_neg hw]
      rw [hls]
      rcases hsl : splitNL rest with _ | ⟨h1, t1⟩
      · exact absurd hsl (splitNL_ne_nil rest)
      · rw [splitNL_cons_ne hc, hsl]
        show pyStrip (c :: h1) :: t1.map pyStrip
          = orEmptyLine (dropLeadingEmpty (pyStrip (c :: h1) :: t1.map pyStrip))
        rw [pyStrip_cons_not_ws hw]
        rw [dropLeadingEmpty_cons_ne (List.cons_ne_nil _ _)]
        unfold orEmptyLine
        rw [if_neg (List.cons_ne_nil _ _)]

theorem map_pyStrip_splitNL_rstrip (s : PyStr) :
    (splitNL (rstripWS s)).map pyStrip
      = orEmptyLine (dropTrailingEmpty ((splitNL s).map pyStrip)) := by
  have h1 : rstripWS s = joinNL (dropTrailWsPieces (splitNL s)) := by
    conv_lhs => rw [← joinNL_splitNL s]
    exact rstripWS_joinNL _
  by_cases hT : dropTrailWsPieces (splitNL s) = []
  · rw [h1, hT]
    have hall := dropTrailWsPieces_eq_nil_iff.mp hT
    have hTmap : dropTrailingEmpty ((splitNL s).map pyStrip) = [] := by
      apply dropTrailingEmpty_eq_nil_iff.mpr
      intro x hx
      rcases List.mem_map.mp hx with ⟨q, hq, rfl⟩
      rw [← pyStrip_rstripWS, hall q hq]
      rfl
    rw [hTmap]
    rfl
  · have hnoNl : ∀ p ∈ dropTrailWsPieces (splitNL s), '\n' ∉ p := by
      intro p hp
      rcases mem_dropTrailWsPieces hp with hmem | ⟨q, hq, rfl⟩
      · exact mem_splitNL_no_nl hmem
      · intro hin
        exact mem_splitNL_no_nl hq ((rstripWS_sublist q).mem hin)
    rw [h1, splitNL_joinNL hnoNl hT, map_pyStrip_dropTrailWsPieces]
    have hne : dropTrailingEmpty ((splitNL s).map pyStrip) ≠ [] := by
      rw [← map_pyStrip_dropTrailWsPieces]
      intro habs
      exact hT (List.map_eq_nil_iff.mp habs)
    unfold orEmptyLine
    rw [if_neg hne]

theorem strippedLines_canon (s : PyStr) :
    strippedLines s
      = orEmptyLine (dropLeadingEmpty
          (dropTrailingEmpty ((splitNL s).map pyStrip))) := by
  show (splitNL (lstripWS (rstripWS s))).map pyStrip = _
  rw [map_pyStrip_splitNL_lstrip (rstripWS s), map_pyStrip_splitNL_rstrip s]
  by_cases hX : dropTrailingEmpty ((splitNL s).map pyStrip) = []
  · rw [hX]
    rfl
  · simp only [orEmptyLine]
    rw [if_neg hX]

theorem map_rstripWS_splitNL_replaceCRLF : ∀ s : PyStr,
    (splitNL (replaceCRLF s)).map rstripWS = (splitNL s).map rstripWS
  | [] => rfl
  | [_] => rfl
  | c₁ :: c₂ :: rest => by
    by_cases h : c₁ = '\r' ∧ c₂ = '\n'
    · obtain ⟨h1, h2⟩ := h
      subst h1
      subst h2
      have e1 : replaceCRLF ('\r' :: '\n' :: rest) = '\n' :: replaceCRLF rest := by
        show (if ('\r' : Char) = '\r' ∧ ('\n' : Char) = '\n'
          then '\n' :: replaceCRLF rest
          else '\r' :: replaceCRLF ('\n' :: rest)) = _
        rw [if_pos ⟨rfl, rfl⟩]
      rw [e1, splitNL_cons_nl, splitNL_cons_ne (by decide) ('\n' :: rest),
        splitNL_cons_nl]
      show List.map rstripWS ([] :: splitNL (replaceCRLF rest))
        = List.map rstripWS (('\r' :: ([] :: splitNL rest).headI)
            :: ([] :: splitNL rest).tail)
      simp only [List.headI, List.tail, List.map_cons]
      rw [map_rstripWS_splitNL_replaceCRLF rest]
      rfl
    · have e1 : replaceCRLF (c₁ :: c₂ :: rest) = c₁ :: replaceCRLF (c₂ :: rest) := by
        show (if c₁ = '\r' ∧ c₂ = '\n'
          then '\n' :: replaceCRLF rest
          else c₁ :: replaceCRLF (c₂ :: rest)) = _
        rw [if_neg h]
      rw [e1]
      by_cases hc1 : c₁ = '\n'
      · subst hc1
        rw [splitNL_cons_nl, splitNL_cons_nl]
        simp only [List.map_cons]
        rw [map_rstripWS_splitNL_replaceCRLF (c₂ :: rest)]
      · rw [splitNL_cons_ne hc1, splitNL_cons_ne hc1]
        have hrec := map_rstripWS_splitNL_replaceCRLF (c₂ :: rest)
        rcases hA : splitNL (replaceCRLF (c₂ :: rest)) with _ | ⟨h1, t1⟩
        · exact absurd hA (splitNL_ne_nil _)
        rcases hB : splitNL (c₂ :: rest) with _ | ⟨h2, t2⟩
        · exact absurd hB (splitNL_ne_nil _)
        rw [hA, hB] at hrec
        simp only [List.map_cons, List.cons.injEq] at hrec
        simp only [List.headI, List.tail, List.map_cons, List.cons.injEq]
        exact ⟨rstripWS_cons_congr c₁ hrec.1, hrec.2⟩

theorem map_pyStrip_eq_map_lstrip_map_rstrip (X : List PyStr) :
    X.map pyStrip = (X.map rstripWS).map lstripWS := by
  rw [List.map_map]
  rfl

theorem map_pyStrip_splitNL_replaceCRLF (e : PyStr) :
    (splitNL (replaceCRLF e)).map pyStrip = (splitNL e).map pyStrip := by
  rw [map_pyStrip_eq_map_lstrip_map_rstrip,
    map_pyStrip_eq_map_lstrip_map_rstrip (splitNL e),
    map_rstripWS_splitNL_replaceCRLF]

/-- The checker-visible view of a string (`strip`, split into lines,
per-line `strip`) is unchanged by `normalize_output`. -/
theorem strippedLines_normalize (e : PyStr) :
    strippedLines (normalize_output e) = strippedLines e := by
  have hmm : ((splitNL (replaceCRLF e)).map rstripWS).map pyStrip
      = (splitNL e).map pyStrip := by
    rw [List.map_map]
    have hfe : pyStrip ∘ rstripWS = pyStrip := funext pyStrip_rstripWS
    rw [hfe, map_pyStrip_splitNL_replaceCRLF]
  by_cases hL : dropTrailingEmpty ((splitNL (replaceCRLF e)).map rstripWS) = []
  · have h0 : normalize_output e = [] := by
      unfold normalize_output
      rw [hL]
      rfl
    rw [h0, strippedLines_canon e]
    have hall := dropTrailingEmpty_eq_nil_iff.mp hL
    have hT : dropTrailingEmpty ((splitNL e).map pyStrip) = [] := by
      apply dropTrailingEmpty_eq_nil_iff.mpr
      intro x hx
      rw [← hmm] at hx
      rcases List.mem_map.mp hx with ⟨q, hq, rfl⟩
      rw [hall q hq]
      rfl
    rw [hT]
    rfl
  · have hgood := goodPiece_of_normalize e
    have hje : normalize_output e
        = joinNL (dropTrailingEmpty ((splitNL (replaceCRLF e)).map rstripWS)) := rfl
    rw [hje, strippedLines_canon, strippedLines_canon e,
      splitNL_joinNL (fun p hp => (hgood p hp).1) hL]
    have hiff : ∀ x ∈ (splitNL (replaceCRLF e)).map rstripWS,
        (pyStrip x = [] ↔ x = []) := by
      intro x hx
      rcases List.mem_map.mp hx with ⟨q, hq, rfl⟩
      rw [pyStrip_rstripWS]
      exact rstripWS_eq_nil_iff_pyStrip.symm
    rw [map_pyStrip_dropTrailingEmpty hiff, hmm, dropTrailingEmpty_idem]

/-! ## Checker verdicts are invariant under normalizing the expected output -/

theorem getIdx_splitNL_zero (s : PyStr) :
    getIdx (splitNL s) 0 = .ok (splitNL s).headI := by
  have hne := splitNL_ne_nil s
  rcases hsl : splitNL s with _ | ⟨h1, t1⟩
  · exact absurd hsl hne
  · simp [getIdx]

theorem headI_map {α β : Type} [Inhabited α] [Inhabited β] {l : List α}
    (f : α → β) (h : l ≠ []) : (l.map f).headI = f l.headI := by
  cases l with
  | nil => exact absurd rfl h
  | cons a t => rfl

theorem strippedLines_head (e : PyStr) :
    pyStrip (splitNL (pyStrip (normalize_output e))).headI
      = pyStrip (splitNL (pyStrip e)).headI := by
  have h := strippedLines_normalize e
  unfold strippedLines at h
  have h1 := congrArg List.headI h
  rw [headI_map pyStrip (splitNL_ne_nil _),
    headI_map pyStrip (splitNL_ne_nil _)] at h1
  exact h1

theorem parseFirstLineInt_strip_congr {e1 e2 : PyStr}
    (h : pyStrip (splitNL (pyStrip e1)).headI
      = pyStrip (splitNL (pyStrip e2)).headI) :
    parseFirstLineInt (splitNL (pyStrip e1))
      = parseFirstLineInt (splitNL (pyStrip e2)) := by
  unfold parseFirstLineInt
  rw [getIdx_splitNL_zero, getIdx_splitNL_zero]
  show pyInt (pyStrip (splitNL (pyStrip e1)).headI)
    = pyInt (pyStrip (splitNL (pyStrip e2)).headI)
  rw [h]

theorem pasteleBody_congr (i a : PyStr) {e1 e2 : PyStr}
    (h : parseFirstLineInt (splitNL (pyStrip e1))
      = parseFirstLineInt (splitNL (pyStrip e2))) :
    pasteleBody i e1 a = pasteleBody i e2 a := by
  simp only [pasteleBody]
  rw [h]

theorem rezBody_congr (i a : PyStr) {e1 e2 : PyStr}
    (h : parseFirstLineInt (splitNL (pyStrip e1))
      = parseFirstLineInt (splitNL (pyStrip e2))) :
    rezBody i e1 a = rezBody i e2 a := by
  simp only [rezBody]
  rw [h]

theorem kolekBody_congr (i a : PyStr) {e1 e2 : PyStr}
    (h : parseFirstLineInt (splitNL (pyStrip e1))
      = parseFirstLineInt (splitNL (pyStrip e2))) :
    kolekBody i e1 a = kolekBody i e2 a := by
  simp only [kolekBody]
  rw [h]

theorem checker_pastele_normalize (p i a e : PyStr) :
    checker_pastele p i (normalize_output e) a = checker_pastele p i e a := by
  unfold checker_pastele
  rw [pasteleBody_congr i a (parseFirstLineInt_strip_congr (strippedLines_head e))]

theorem checker_rez_normalize (p i a e : PyStr) :
    checker_rez p i (normalize_output e) a = checker_rez p i e a := by
  unfold checker_rez
  rw [rezBody_congr i a (parseFirstLineInt_strip_congr (strippedLines_head e))]

theorem checker_kolekcija_normalize (p i a e : PyStr) :
    checker_kolekcija p i (normalize_output e) a = checker_kolekcija p i e a := by
  unfold checker_kolekcija
  rw [kolekBody_congr i a (parseFirstLineInt_strip_congr (strippedLines_head e))]

theorem defaultCheckLines_congr : ∀ (E1 E2 A : List PyStr) (i : Nat),
    E1.map pyStrip = E2.map pyStrip →
    defaultCheckLines E1 A i = defaultCheckLines E2 A i := by
  intro E1
  induction E1 with
  | nil =>
    intro E2 A i h
    have h2 : E2 = [] := List.map_eq_nil_iff.mp h.symm
    rw [h2]
  | cons el es ih =>
    intro E2 A i h
    cases E2 with
    | nil => simp at h
    | cons fl fs =>
      simp only [List.map_cons, List.cons.injEq] at h
      obtain ⟨hh, ht⟩ := h
      cases A with
      | nil => rfl
      | cons al as2 =>
        show defaultCheckLines (el :: es) (al :: as2) i
          = defaultCheckLines (fl :: fs) (al :: as2) i
        simp only [defaultCheckLines]
        rw [hh, ih fs as2 (i + 1) ht]

theorem default_checker_normalize (p i a e : PyStr) :
    default_checker p i (normalize_output e) a = default_checker p i e a := by
  have h := strippedLines_normalize e
  unfold strippedLines at h
  have hlen : (splitNL (pyStrip (normalize_output e))).length
      = (splitNL (pyStrip e)).length := by
    have h2 := congrArg List.length h
    simpa using h2
  simp only [default_checker]
  rw [hlen, defaultCheckLines_congr _ _ _ 0 h]

theorem get_checker_normalize (pid p i a e : PyStr) :
    get_checker pid p i (normalize_output e) a = get_checker pid p i e a := by
  unfold get_checker
  rcases hf : CHECKER_REGISTRY.find? (fun q => decide (q.1 = pid)) with _ | q
  · rw [hf]
    exact default_checker_normalize p i a e
  · rw [hf]
    have hq := List.mem_of_find?_eq_some hf
    simp only [CHECKER_REGISTRY, List.mem_cons, List.mem_singleton,
      List.not_mem_nil, or_false] at hq
    rcases hq with hq | hq | hq
    · rw [hq]
      exact checker_pastele_normalize p i a e
    · rw [hq]
      exact checker_rez_normalize p i a e
    · rw [hq]
      exact checker_kolekcija_normalize p i a e

/-- **C1.**  For every grade request, the Verdict Service returns exactly
the same response whether or not the stored expected output is first put
through `normalize_output` (CRLF to LF, right-trim each line, drop
trailing blank lines): every checker reads the expected output only
through stripping, so the comparison is independent of incidental
whitespace in the stored file, exactly as if the service applied the
normalization before invoking the checker. -/
theorem grade_invariant_under_normalized_expected (store : FileStore)
    (req : Option GradeRequest) :
    grade (normalizeStoreOutputs store) req = grade store req := by
  cases req with
  | none => rfl
  | some data =>
    obtain ⟨pidOpt, tidOpt, act⟩ := data
    cases pidOpt with
    | none => rfl
    | some pid =>
      cases tidOpt with
      | none =>
        by_cases hpe : pid = [] <;>
          simp [grade, gradeWith, normalizeStoreOutputs, hpe]
      | some tid =>
        by_cases hpe : pid = []
        · simp [grade, gradeWith, normalizeStoreOutputs, hpe]
        · by_cases hte : tid = []
          · simp [grade, gradeWith, normalizeStoreOutputs, hpe, hte]
          · cases hi : store.input pid tid <;>
              cases ho : store.output pid tid <;>
                simp [grade, gradeWith, normalizeStoreOutputs, hpe, hte, hi, ho,
                  getCheckerComp, get_checker_normalize]

/-- **C2.**  Whenever the selected checker raises an exception, the
`grade` endpoint catches it and answers HTTP 200 with verdict `WA`,
`passed = false` and the checker-error message; the exception never
propagates out of the endpoint and is never reported as success. -/
theorem grade_checker_exception_is_wa (checkerOf : PyStr → CheckerComp)
    (store : FileStore) (data : GradeRequest) (pid tid i e : PyStr)
    (exn : PyExn)
    (hpid : data.problem_id = some pid) (hpe : pid ≠ [])
    (htid : data.test_id = some tid) (hte : tid ≠ [])
    (hi : store.input pid tid = .content i)
    (ho : store.output pid tid = .content e)
    (hexn : checkerOf pid pid i e data.actual_output = .error exn) :
    gradeWith checkerOf store (some data)
      = ⟨200, "WA".data, false, ServerMsg.checkerError exn⟩ := by
  unfold gradeWith
  simp only [hpid, htid, hi, ho, if_neg hpe, if_neg hte, hexn]

theorem grade_checker_exception_is_wa_witness :
    gradeWith (fun _ _ _ _ _ => .error (PyExn.valueError []))
      ⟨fun _ _ => .content "1".data, fun _ _ => .content "1".data⟩
      (some ⟨some "p".data, some "t".data, "out".data⟩)
      = ⟨200, "WA".data, false, ServerMsg.checkerError (PyExn.valueError [])⟩ :=
  grade_checker_exception_is_wa _ _ _ "p".data "t".data "1".data "1".data _
    rfl (by decide) rfl (by decide) rfl rfl rfl

unseal Rat.add Rat.mul Rat.sub Rat.inv in
/-- **C4 counterexample.**  The claimed tolerance
`|a-b| <= max(1e-9, 1e-6*|b|)` (relative to the expected value `b` only)
is not the code's rule: `math.isclose` is symmetric in the two values.
With expected `10000000` and actual `10000010.000005` the default
checker accepts, yet the claimed formula rejects the token pair. -/
theorem default_checker_tolerance_claim_false :
    pyFloat "10000000".data = some 10000000
      ∧ pyFloat "10000010.000005".data = some (10000010 + 5 / 1000000)
      ∧ default_checker [] [] "10000000".data "10000010.000005".data
          = (true, Msg.ok)
      ∧ ¬ (|(10000010 + 5 / 1000000 : ℚ) - 10000000|
            ≤ max ((1 : ℚ) / 1000000000)
              ((1 : ℚ) / 1000000 * |(10000000 : ℚ)|)) := by
  refine ⟨by decide, by decide, by decide, by decide⟩

unseal Rat.add Rat.mul Rat.sub Rat.inv in
/-- **C4 (amended).**  In the default checker a float token pair
`(a actual, b expected)` passes exactly when
`|a-b| <= max(1e-6 * max(|a|, |b|), 1e-9)` (the `math.isclose` rule,
symmetric in the two values); the spec's examples behave as stated:
expected `"1.0\n2.0"` with actual `"1.0000001\n2.0"` is accepted, and
actual `"1.1\n2.0"` is rejected citing line 1 (token 1, expected `1.0`,
got `1.1`). -/
theorem default_checker_tolerance_amended :
    (∀ a b : ℚ, _floats_equal a b = true
      ↔ |a - b| ≤ max ((1 : ℚ) / 1000000 * max |a| |b|) ((1 : ℚ) / 1000000000))
    ∧ default_checker [] [] "1.0\n2.0".data "1.0000001\n2.0".data
        = (true, Msg.ok)
    ∧ default_checker [] [] "1.0\n2.0".data "1.1\n2.0".data
        = (false, Msg.tokenMismatch 1 1 1 (11 / 10)) := by
  refine ⟨fun a b => ?_, by decide, by decide⟩
  unfold _floats_equal
  exact decide_eq_true_iff

/-- **C5.**  Output normalization is idempotent, for the function shared
by the Verdict Service (`normalize_output`) and the Runner
(`_normalize_output`): normalizing a normalized string is the identity. -/
theorem normalize_output_idempotent :
    (∀ s : PyStr, normalize_output (normalize_output s) = normalize_output s)
    ∧ ∀ t : String, runner_normalize_output (runner_normalize_output t)
        = runner_normalize_output t := by
  constructor
  · exact normalize_output_normalize_output
  · intro t
    show String.mk (normalize_output
        (String.mk (normalize_output t.data)).data)
      = String.mk (normalize_output t.data)
    exact congrArg String.mk (normalize_output_normalize_output t.data)

/-- **C3.**  A failed grading call (raised request exception, or any
non-200 response) never yields `passed = true` from `_grade_via_api`;
and a test whose every grading request fails is recorded by
`_run_test_case` as non-passing with a failure status — never `AC`. -/
theorem api_failure_never_ac :
    (∀ o : GradeApiOutcome, apiFails o → (_grade_via_api o).1 = false)
    ∧ ∀ (env : TestEnv) (tid : String) (tl : ℚ),
        (∀ s, apiFails (env.gradeApi s)) →
        (_run_test_case env tid tl).passed = false
          ∧ (_run_test_case env tid tl).status ≠ "AC" := by
  have hpart1 : ∀ o : GradeApiOutcome, apiFails o →
      (_grade_via_api o).1 = false := by
    intro o ho
    cases o with
    | exn e => rfl
    | response st ctJson pf mf =>
      have ho2 : ¬ st = 200 := ho
      simp only [_grade_via_api]
      rw [if_neg ho2]
  refine ⟨hpart1, ?_⟩
  intro env tid tl hfail
  unfold _run_test_case
  by_cases hie : env.inputExists = false
  · rw [if_pos hie]
    exact ⟨rfl, by simp⟩
  · rw [if_neg hie]
    cases env.run with
    | timeout => exact ⟨rfl, by simp⟩
    | exn e => exact ⟨rfl, by simp⟩
    | completed rc out err t =>
      by_cases hrc : rc ≠ 0
      · simp [hrc]
      · have hp := hpart1 (env.gradeApi (normalize_output out))
          (hfail (normalize_output out))
        simp [hrc, hp]

theorem api_failure_never_ac_witness :
    (_run_test_case
        ⟨true, RunOutcome.completed 0 "ok".data "" 1,
          fun _ => GradeApiOutcome.exn "connection refused"⟩ "1" 2).passed
      = false
    ∧ (_run_test_case
        ⟨true, RunOutcome.completed 0 "ok".data "" 1,
          fun _ => GradeApiOutcome.exn "connection refused"⟩ "1" 2).status
      ≠ "AC" :=
  api_failure_never_ac.2 _ "1" 2 (fun _ => trivial)

/-- **C10.**  Every `TestResult` the Runner produces satisfies
`passed = true` exactly when `status = "AC"`, on every path of
`_run_test_case` (missing input, runtime error, timeout, spawn failure,
and both verdict outcomes). -/
theorem test_result_passed_iff_ac (env : TestEnv) (tid : String) (tl : ℚ) :
    ((_run_test_case env tid tl).passed = true
      ↔ (_run_test_case env tid tl).status = "AC") := by
  unfold _run_test_case
  by_cases hie : env.inputExists = false
  · rw [if_pos hie]
    simp
  · rw [if_neg hie]
    cases env.run with
    | timeout => simp
    | exn e => simp
    | completed rc out err t =>
      by_cases hrc : rc ≠ 0
      · simp [hrc]
      · by_cases hgp : (_grade_via_api
            (env.gradeApi (normalize_output out))).1 = true
        · simp [hrc, hgp]
        · simp [hrc, hgp]

/-- **C9 counterexample.**  The claim requires a non-empty
`compilation_error` string on every compile-error pass, but the code
stores the compiler's stderr verbatim: a compiler that exits non-zero
with empty stderr yields `compilation_error = some ""` — present but
empty. -/
theorem run_grading_ce_empty_diagnostic :
    run_grading
        ⟨"p", 2, some Lang.cpp, CompileEnv.completed 1 "", [],
          fun _ => ⟨true, RunOutcome.timeout, fun _ => GradeApiOutcome.exn ""⟩⟩
      = ⟨0, 0, 0, "cpp", [], some ""⟩
    ∧ ¬ ∃ s : String,
        (run_grading
          ⟨"p", 2, some Lang.cpp, CompileEnv.completed 1 "", [],
            fun _ => ⟨true, RunOutcome.timeout,
              fun _ => GradeApiOutcome.exn ""⟩⟩).compilation_error = some s
        ∧ s ≠ "" := by
  constructor
  · rfl
  · intro hex
    rcases hex with ⟨s, hs, hne⟩
    have h1 : (run_grading
        ⟨"p", 2, some Lang.cpp, CompileEnv.completed 1 "", [],
          fun _ => ⟨true, RunOutcome.timeout,
            fun _ => GradeApiOutcome.exn ""⟩⟩).compilation_error
        = some "" := rfl
    rw [h1] at hs
    exact hne (Option.some_inj.mp hs).symm

theorem string_eq_empty_of_length_zero {a : String} (h : a.length = 0) :
    a = "" := by
  cases a with
  | mk d =>
    cases d with
    | nil => rfl
    | cons c t => simp [String.length] at h

theorem string_append_ne_empty {a : String} (b : String) (h : a ≠ "") :
    a ++ b ≠ "" := by
  intro habs
  apply h
  have hlen := congrArg String.length habs
  rw [String.length_append] at hlen
  have ha : a.length = 0 := by
    have h0 : ("" : String).length = 0 := rfl
    omega
  exact string_eq_empty_of_length_zero ha

theorem run_grading_none (env : RunnerEnv) (h : env.solution = none) :
    run_grading env
      = ⟨0, 0, 0, "unknown", [],
          some ("No solution file found. Expected " ++ env.problem_id
            ++ ".cpp or " ++ env.problem_id ++ ".py")⟩ := by
  simp [run_grading, h]

theorem run_grading_compile_fail (env : RunnerEnv) (lang : Lang)
    (h : env.solution = some lang)
    (hc : (if lang = Lang.cpp then _compile_cpp env.compile
      else (true, "")).1 = false) :
    run_grading env
      = ⟨0, 0, 0, if lang = Lang.cpp then "cpp" else "python", [],
          some (if lang = Lang.cpp then _compile_cpp env.compile
            else (true, "")).2⟩ := by
  simp only [run_grading, h, hc, if_true]

theorem run_grading_no_tests (env : RunnerEnv) (lang : Lang)
    (h : env.solution = some lang)
    (hc : ¬ (if lang = Lang.cpp then _compile_cpp env.compile
      else (true, "")).1 = false)
    (ht : env.test_cases = []) :
    run_grading env
      = ⟨0, 0, 0, if lang = Lang.cpp then "cpp" else "python", [],
          some ("No test cases found for problem " ++ env.problem_id)⟩ := by
  simp [run_grading, h, if_neg hc, ht]

theorem run_grading_run (env : RunnerEnv) (lang : Lang)
    (h : env.solution = some lang)
    (hc : ¬ (if lang = Lang.cpp then _compile_cpp env.compile
      else (true, "")).1 = false)
    (ht : ¬ env.test_cases = []) :
    run_grading env
      = ⟨(if env.test_cases.length > 0
            then (((env.test_cases.map fun tid =>
                _run_test_case (env.tests tid) tid
                  env.time_limit_seconds).filter fun r => r.passed).length : ℚ)
              / (env.test_cases.length : ℚ)
            else 0),
          ((env.test_cases.map fun tid =>
              _run_test_case (env.tests tid) tid
                env.time_limit_seconds).filter fun r => r.passed).length,
          env.test_cases.length,
          if lang = Lang.cpp then "cpp" else "python",
          (env.test_cases.map fun tid =>
            _run_test_case (env.tests tid) tid env.time_limit_seconds),
          none⟩ := by
  simp only [run_grading, h, if_neg hc, if_neg ht]

/-- **C9 (amended).**  Every `GradingResult` satisfies
`score = passed/total` when `total > 0` and `score = 0` when
`total = 0`; a missing solution file and the no-test-cases outcome give
`score = 0`, `total = 0`, no test results, and a non-empty
`compilation_error` message; a compile failure gives `score = 0`,
`total = 0`, no test results, and `compilation_error` present and equal
to the compiler diagnostic — which the code does not guarantee to be
non-empty. -/
theorem run_grading_result_invariants (env : RunnerEnv) :
    ((run_grading env).total > 0 →
      (run_grading env).score
        = ((run_grading env).passed : ℚ) / ((run_grading env).total : ℚ))
    ∧ ((run_grading env).total = 0 → (run_grading env).score = 0)
    ∧ (env.solution = none →
        run_grading env
          = ⟨0, 0, 0, "unknown", [],
              some ("No solution file found. Expected " ++ env.problem_id
                ++ ".cpp or " ++ env.problem_id ++ ".py")⟩
        ∧ ∃ s, (run_grading env).compilation_error = some s ∧ s ≠ "")
    ∧ (env.solution = some Lang.cpp → (_compile_cpp env.compile).1 = false →
        run_grading env
          = ⟨0, 0, 0, "cpp", [], some (_compile_cpp env.compile).2⟩)
    ∧ (∀ lang, env.solution = some lang →
        (lang = Lang.cpp → (_compile_cpp env.compile).1 = true) →
        env.test_cases = [] →
        run_grading env
          = ⟨0, 0, 0, if lang = Lang.cpp then "cpp" else "python", [],
              some ("No test cases found for problem " ++ env.problem_id)⟩
        ∧ ∃ s, (run_grading env).compilation_error = some s ∧ s ≠ "") := by
  refine ⟨?_, ?_, ?_, ?_, ?_⟩
  · intro hpos
    cases hsol : env.solution with
    | none =>
      rw [run_grading_none env hsol] at hpos
      simp at hpos
    | some lang =>
      by_cases hc : (if lang = Lang.cpp then _compile_cpp env.compile
          else (true, "")).1 = false
      · rw [run_grading_compile_fail env lang hsol hc] at hpos
        simp at hpos
      · by_cases ht : env.test_cases = []
        · rw [run_grading_no_tests env lang hsol hc ht] at hpos
          simp at hpos
        · rw [run_grading_run env lang hsol hc ht] at hpos ⊢
          simp only at hpos ⊢
          rw [if_pos hpos]
  · intro hz
    cases hsol : env.solution with
    | none => rw [run_grading_none env hsol]
    | some lang =>
      by_cases hc : (if lang = Lang.cpp then _compile_cpp env.compile
          else (true, "")).1 = false
      · rw [run_grading_compile_fail env lang hsol hc]
      · by_cases ht : env.test_cases = []
        · rw [run_grading_no_tests env lang hsol hc ht]
        · rw [run_grading_run env lang hsol hc ht] at hz ⊢
          simp only at hz ⊢
          exact absurd (List.length_eq_zero.mp hz) ht
  · intro hsol
    have hr := run_grading_none env hsol
    refine ⟨hr, "No solution file found. Expected " ++ env.problem_id
        ++ ".cpp or " ++ env.problem_id ++ ".py", ?_, ?_⟩
    · rw [hr]
    · exact string_append_ne_empty _
        (string_append_ne_empty _
          (string_append_ne_empty _
            (string_append_ne_empty _ (by decide))))
  · intro hsol hcf
    have hc : (if Lang.cpp = Lang.cpp then _compile_cpp env.compile
        else (true, "")).1 = false := by
      rw [if_pos rfl]
      exact hcf
    have hr := run_grading_compile_fail env Lang.cpp hsol hc
    rw [if_pos rfl] at hr
    exact hr
  · intro lang hsol hcomp ht
    have hc : ¬ (if lang = Lang.cpp then _compile_cpp env.compile
        else (true, "")).1 = false := by
      cases lang with
      | cpp =>
        rw [if_pos rfl]
        rw [hcomp rfl]
        decide
      | python =>
        rw [if_neg (by decide)]
        decide
    refine ⟨run_grading_no_tests env lang hsol hc ht,
      "No test cases found for problem " ++ env.problem_id, ?_, ?_⟩
    · rw [run_grading_no_tests env lang hsol hc ht]
    · exact string_append_ne_empty _ (by decide)

theorem run_grading_result_invariants_witness :
    run_grading
        ⟨"p", 2, none, CompileEnv.timeout, [],
          fun _ => ⟨true, RunOutcome.timeout, fun _ => GradeApiOutcome.exn ""⟩⟩
      = ⟨0, 0, 0, "unknown", [],
          some ("No solution file found. Expected " ++ "p"
            ++ ".cpp or " ++ "p" ++ ".py")⟩
    ∧ ∃ s, (run_grading
        ⟨"p", 2, none, CompileEnv.timeout, [],
          fun _ => ⟨true, RunOutcome.timeout,
            fun _ => GradeApiOutcome.exn ""⟩⟩).compilation_error
        = some s ∧ s ≠ "" :=
  (run_grading_result_invariants _).2.2.1 rfl

theorem mem_unionSet {x : Int} : ∀ {L : List (Int × Int)},
    x ∈ unionSet L ↔ ∃ p ∈ L, p.1 ≤ x ∧ x ≤ p.2 := by
  intro L
  induction L with
  | nil => simp [unionSet]
  | cons p rest ih =>
    show x ∈ intervalSet p ∪ unionSet rest ↔ _
    rw [Finset.mem_union, ih]
    unfold intervalSet
    rw [Finset.mem_Icc]
    constructor
    · intro h
      rcases h with h | ⟨q, hq, hx⟩
      · exact ⟨p, List.mem_cons_self _ _, h⟩
      · exact ⟨q, List.mem_cons_of_mem _ hq, hx⟩
    · intro ⟨q, hq, hx⟩
      rcases List.mem_cons.mp hq with hq | hq
      · exact Or.inl (hq ▸ hx)
      · exact Or.inr ⟨q, hq, hx⟩

theorem unionSet_perm {L1 L2 : List (Int × Int)} (h : L1.Perm L2) :
    unionSet L1 = unionSet L2 := by
  induction h with
  | nil => rfl
  | cons x hp ih =>
    rename_i l1 l2
    show intervalSet x ∪ unionSet l1 = intervalSet x ∪ unionSet l2
    rw [ih]
  | swap x y l =>
    show intervalSet y ∪ (intervalSet x ∪ unionSet l)
      = intervalSet x ∪ (intervalSet y ∪ unionSet l)
    rw [Finset.union_left_comm]
  | trans _ _ ih1 ih2 => rw [ih1, ih2]

theorem sumLens_cons (p : Int × Int) (l : List (Int × Int)) :
    sumLens (p :: l) = (p.2 - p.1 + 1) + sumLens l := by
  simp [sumLens]

theorem tupleLe_fst {p q : Int × Int} (h : tupleLe p q) : p.1 ≤ q.1 := by
  unfold tupleLe at h
  omega

theorem sumLens_mergeIntervals : ∀ (L : List (Int × Int)) (cs ce : Int),
    cs ≤ ce →
    (∀ p ∈ L, cs ≤ p.1) →
    L.Pairwise (fun p q => p.1 ≤ q.1) →
    (∀ p ∈ L, p.1 ≤ p.2) →
    sumLens (mergeIntervals (cs, ce) L)
      = ((Finset.Icc cs ce ∪ unionSet L).card : Int) := by
  intro L
  induction L with
  | nil =>
    intro cs ce hcs _ _ _
    show sumLens [(cs, ce)] = _
    rw [sumLens_cons]
    show (ce - cs + 1) + sumLens [] = _
    have hu : unionSet ([] : List (Int × Int)) = ∅ := rfl
    rw [hu, Finset.union_empty, Int.card_Icc]
    show (ce - cs + 1) + 0 = _
    omega
  | cons p rest ih =>
    rcases p with ⟨s, e⟩
    intro cs ce hcs hfst hsorted hab
    have hcss : cs ≤ s := hfst (s, e) (List.mem_cons_self _ _)
    have hse : s ≤ e := hab (s, e) (List.mem_cons_self _ _)
    have hpc := List.pairwise_cons.mp hsorted
    have hrestfst : ∀ q ∈ rest, s ≤ q.1 := hpc.1
    have hrestab : ∀ q ∈ rest, q.1 ≤ q.2 :=
      fun q hq => hab q (List.mem_cons_of_mem _ hq)
    have huc : unionSet ((s, e) :: rest) = Finset.Icc s e ∪ unionSet rest := rfl
    by_cases hmerge : s ≤ ce + 1
    · have hstep : mergeIntervals (cs, ce) ((s, e) :: rest)
          = mergeIntervals (cs, max ce e) rest := by
        simp [mergeIntervals, hmerge]
      rw [hstep, ih cs (max ce e) (le_trans hcs (le_max_left _ _))
        (fun q hq => le_trans hcss (hrestfst q hq))
        hpc.2 hrestab]
      have hset : Finset.Icc cs (max ce e)
          = Finset.Icc cs ce ∪ Finset.Icc s e := by
        ext x
        simp only [Finset.mem_Icc, Finset.mem_union]
        omega
      rw [huc, hset, Finset.union_assoc]
    · have hstep : mergeIntervals (cs, ce) ((s, e) :: rest)
          = (cs, ce) :: mergeIntervals (s, e) rest := by
        simp [mergeIntervals, hmerge]
      rw [hstep, sumLens_cons]
      show (ce - cs + 1) + sumLens (mergeIntervals (s, e) rest) = _
      rw [ih s e hse hrestfst hpc.2 hrestab]
      have hdisj : Disjoint (Finset.Icc cs ce)
          (Finset.Icc s e ∪ unionSet rest) := by
        rw [Finset.disjoint_left]
        intro x hx hx2
        rw [Finset.mem_Icc] at hx
        rcases Finset.mem_union.mp hx2 with h2 | h2
        · rw [Finset.mem_Icc] at h2
          omega
        · rcases mem_unionSet.mp h2 with ⟨q, hq, hq1, hq2⟩
          have hsq := hrestfst q hq
          omega
      rw [huc, Finset.card_union_of_disjoint hdisj, Int.card_Icc]
      push_cast
      omega

/-- `_count_distinct_in_intervals` computes the number of distinct
integers covered by the union of the windows. -/
theorem count_distinct_eq_card (L : List (Int × Int))
    (hab : ∀ p ∈ L, p.1 ≤ p.2) :
    _count_distinct_in_intervals L = ((unionSet L).card : Int) := by
  unfold _count_distinct_in_intervals
  by_cases hL : L = []
  · rw [if_pos hL, hL]
    rfl
  · rw [if_neg hL]
    have hperm := List.perm_insertionSort tupleLe L
    have hsorted := List.sorted_insertionSort tupleLe L
    rcases hms : List.insertionSort tupleLe L with _ | ⟨f, rest⟩
    · have hlen := hperm.length_eq
      rw [hms] at hlen
      exact absurd (List.length_eq_zero.mp hlen.symm) hL
    · rw [hms] at hperm hsorted
      rcases f with ⟨a, b⟩
      have hcons := List.pairwise_cons.mp hsorted
      have habAll : ∀ p ∈ ((a, b) :: rest), p.1 ≤ p.2 :=
        fun p hp => hab p (hperm.subset hp)
      show sumLens (mergeIntervals (a, b) rest) = ((unionSet L).card : Int)
      rw [sumLens_mergeIntervals rest a b
        (habAll (a, b) (List.mem_cons_self _ _))
        (fun q hq => tupleLe_fst (hcons.1 q hq))
        (hcons.2.imp tupleLe_fst)
        (fun q hq => habAll q (List.mem_cons_of_mem _ hq))]
      have hU : unionSet L = Finset.Icc a b ∪ unionSet rest := by
        rw [← unionSet_perm hperm]
        rfl
      rw [hU]

/-! ## Monadic reduction helpers for the checker bodies -/

theorem except_bind_ok {α β : Type} (a : α) (f : α → Except PyExn β) :
    (Except.ok a : Except PyExn α) >>= f = f a := rfl

theorem except_pure {α : Type} (a : α) :
    (pure a : Except PyExn α) = Except.ok a := rfl

theorem except_bind_err {α β : Type} (e : PyExn) (f : α → Except PyExn β) :
    (Except.error e : Except PyExn α) >>= f = .error e := rfl

theorem getIdx_cons_zero {α : Type} (x : α) (l : List α) :
    getIdx (x :: l) 0 = .ok x := rfl

theorem getIdx_cons_one {α : Type} (x : α) (l : List α) :
    getIdx (x :: l) 1 = getIdx l 0 := rfl

theorem readInts_length : ∀ (lines : List PyStr) (i cnt : Nat)
    (vs : List Int), readInts lines i cnt = .ok vs → vs.length = cnt := by
  intro lines i cnt
  induction cnt generalizing i with
  | zero =>
    intro vs h
    simp only [readInts] at h
    cases h
    rfl
  | succ c ih =>
    intro vs h
    simp only [readInts] at h
    rcases hl : getIdx lines i with e | l
    · rw [hl] at h
      cases h
    · rw [hl, except_bind_ok] at h
      rcases hv : pyInt (pyStrip l) with e | v
      · rw [hv] at h
        cases h
      · rw [hv, except_bind_ok] at h
        rcases hr : readInts lines (i + 1) c with e | rest
        · rw [hr] at h
          cases h
        · rw [hr, except_bind_ok, except_pure] at h
          cases h
          have := ih (i + 1) rest hr
          simp [this]

theorem kolekParseIntervals_length : ∀ (ls : List PyStr) (i : Nat)
    (xs : List (Int × Int)), kolekParseIntervals ls i = .inr xs →
    xs.length = ls.length := by
  intro ls
  induction ls with
  | nil =>
    intro i xs h
    simp only [kolekParseIntervals] at h
    cases h
    rfl
  | cons l rest ih =>
    intro i xs h
    simp only [kolekParseIntervals] at h
    split at h
    · split at h
      · cases h
      · split at h
        · cases h
        · rename_i ys hrec
          cases h
          simp [ih (i + 1) ys hrec]
    · cases h

theorem mem_zip_right {α β : Type} : ∀ (xs : List α) (ys : List β),
    xs.length = ys.length → ∀ y ∈ ys, ∃ x, (x, y) ∈ xs.zip ys := by
  intro xs
  induction xs with
  | nil =>
    intro ys h y hy
    have : ys = [] := List.length_eq_zero.mp h.symm
    rw [this] at hy
    cases hy
  | cons x xs2 ih =>
    intro ys h y hy
    cases ys with
    | nil => cases hy
    | cons y0 ys2 =>
      rcases List.mem_cons.mp hy with hy | hy
      · exact ⟨x, hy ▸ List.mem_cons_self _ _⟩
      · have hlen : xs2.length = ys2.length := by
          simp only [List.length_cons] at h
          omega
        rcases ih ys2 hlen y hy with ⟨x2, hx2⟩
        exact ⟨x2, List.mem_cons_of_mem _ hx2⟩

theorem kolekValidate_eq_none_iff : ∀ (songs : List Int)
    (intervals : List (Int × Int)) (k n : Int) (i : Nat),
    kolekValidate songs intervals k n i = none
      ↔ ∀ pr ∈ songs.zip intervals,
          pr.2.2 - pr.2.1 + 1 = k ∧ (1 ≤ pr.2.1 ∧ pr.2.2 ≤ n)
            ∧ (pr.2.1 ≤ pr.1 ∧ pr.1 ≤ pr.2.2) := by
  intro songs
  induction songs with
  | nil =>
    intro intervals k n i
    simp [kolekValidate]
  | cons s ss ih =>
    intro intervals k n i
    cases intervals with
    | nil => simp [kolekValidate]
    | cons ab xs =>
      rcases ab with ⟨a, b⟩
      show kolekValidate (s :: ss) ((a, b) :: xs) k n i = none ↔ _
      rw [List.zip_cons_cons, List.forall_mem_cons]
      simp only [kolekValidate]
      by_cases h1 : b - a + 1 ≠ k
      · rw [if_pos h1]
        constructor
        · intro habs
          cases habs
        · intro hall
          exact absurd hall.1.1 h1
      · rw [if_neg h1]
        by_cases h2 : a < 1 ∨ b > n
        · rw [if_pos h2]
          constructor
          · intro habs
            cases habs
          · intro hall
            have hb := hall.1.2.1
            omega
        · rw [if_neg h2]
          by_cases h3 : ¬ (a ≤ s ∧ s ≤ b)
          · rw [if_pos h3]
            constructor
            · intro habs
              cases habs
            · intro hall
              have hb := hall.1.2.2
              omega
          · rw [if_neg h3]
            rw [ih xs k n (i + 1)]
            constructor
            · intro hrest
              exact ⟨⟨by omega, by omega, by omega⟩, hrest⟩
            · intro hand
              exact hand.2

/-- C8: the KOLEKCIJA checker accepts exactly when the claimed disk-access
count equals the expected one, every window has width exactly K, lies within
[1, N] and contains its associated song, and the number of distinct song ids
covered by the union of the M windows equals the claimed count. Stated for
any request whose input, expected and actual files parse successfully
(checkers.py lines 271-347). -/
theorem checker_kolekcija_accepts_iff
    (pid input_data expected actual : PyStr)
    (l0 t0 t1 l1 a0 : PyStr) (n k m ea aa : Int)
    (songs : List Int) (intervals : List (Int × Int))
    (h0 : getIdx (splitNL (pyStrip input_data)) 0 = .ok l0)
    (ht0 : getIdx (splitWS l0) 0 = .ok t0)
    (hn : pyInt t0 = .ok n)
    (ht1 : getIdx (splitWS l0) 1 = .ok t1)
    (hk : pyInt t1 = .ok k)
    (hl1 : getIdx (splitNL (pyStrip input_data)) 1 = .ok l1)
    (hm : pyInt (pyStrip l1) = .ok m)
    (hsongs : readInts (splitNL (pyStrip input_data)) 2 m.toNat = .ok songs)
    (hexp : parseFirstLineInt (splitNL (pyStrip expected)) = .ok ea)
    (ha0 : getIdx (splitNL (pyStrip actual)) 0 = .ok a0)
    (haa : pyInt (pyStrip a0) = .ok aa)
    (hmlen : m + 1 ≤ ((splitNL (pyStrip actual)).length : Int))
    (hints : kolekParseIntervals
      (((splitNL (pyStrip actual)).drop 1).take m.toNat) 1 = .inr intervals) :
    checker_kolekcija pid input_data expected actual = (true, Msg.ok)
      ↔ aa = ea
        ∧ (∀ pr ∈ songs.zip intervals,
            pr.2.2 - pr.2.1 + 1 = k ∧ (1 ≤ pr.2.1 ∧ pr.2.2 ≤ n)
              ∧ (pr.2.1 ≤ pr.1 ∧ pr.1 ≤ pr.2.2))
        ∧ ((unionSet intervals).card : Int) = aa := by
  have hALne : splitNL (pyStrip actual) ≠ [] := splitNL_ne_nil _
  have hALpos : 0 < (splitNL (pyStrip actual)).length :=
    List.length_pos.mpr hALne
  have hnolt : ¬ (splitNL (pyStrip actual)).length < 1 := by omega
  have hslen : songs.length = m.toNat :=
    readInts_length _ 2 m.toNat songs hsongs
  have hilen : intervals.length = songs.length := by
    have h1 := kolekParseIntervals_length _ 1 intervals hints
    rw [List.length_take, List.length_drop] at h1
    rw [h1, hslen]
    omega
  have hzipall : kolekValidate songs intervals k n 0 = none →
      ∀ p ∈ intervals, p.1 ≤ p.2 := by
    intro hv p hp
    have hall := (kolekValidate_eq_none_iff songs intervals k n 0).mp hv
    rcases mem_zip_right songs intervals hilen.symm p hp with ⟨s, hs⟩
    exact le_trans (hall (s, p) hs).2.2.1 (hall (s, p) hs).2.2.2
  simp only [checker_kolekcija, kolekBody, h0, ht0, hn, ht1, hk, hl1, hm,
    hsongs, hexp, ha0, haa, except_bind_ok, except_pure]
  rw [if_neg hnolt]
  by_cases haaea : aa = ea
  · rw [if_neg (by simp [haaea] : ¬ aa ≠ ea),
      if_neg (by omega : ¬ ((splitNL (pyStrip actual)).length : Int) < m + 1)]
    simp only [hints]
    rcases hv : kolekValidate songs intervals k n 0 with _ | msg
    · simp only [hv]
      have habI := hzipall hv
      have hcd := count_distinct_eq_card intervals habI
      by_cases hcnt : _count_distinct_in_intervals intervals ≠ aa
      · rw [if_pos hcnt]
        constructor
        · intro habs
          simp at habs
        · intro hrhs
          exact absurd (hcd.trans hrhs.2.2) hcnt
      · rw [if_neg hcnt]
        push_neg at hcnt
        constructor
        · intro _
          exact ⟨haaea, (kolekValidate_eq_none_iff songs intervals k n 0).mp hv,
            hcd ▸ hcnt⟩
        · intro _
          rfl
    · simp only [hv]
      constructor
      · intro habs
        simp at habs
      · intro hrhs
        have hnone := (kolekValidate_eq_none_iff songs intervals k n 0).mpr hrhs.2.1
        rw [hv] at hnone
        cases hnone
  · rw [if_pos haaea]
    constructor
    · intro habs
      simp at habs
    · intro hrhs
      exact absurd hrhs.1 haaea

/-- Witness for C8: the sample KOLEKCIJA request (N=10, K=3, M=3, songs
5, 6, 7; expected 5 accesses; claimed 5 with windows [4,6], [5,7], [6,8])
is accepted, via the iff. -/
theorem checker_kolekcija_accepts_iff_witness :
    checker_kolekcija "kolekcija".data "10 3\n3\n5\n6\n7".data "5".data
      "5\n4 6\n5 7\n6 8".data = (true, Msg.ok) :=
  (checker_kolekcija_accepts_iff "kolekcija".data "10 3\n3\n5\n6\n7".data
    "5".data "5\n4 6\n5 7\n6 8".data
    "10 3".data "10".data "3".data "3".data "5".data 10 3 3 5 5
    [5, 6, 7] [(4, 6), (5, 7), (6, 8)]
    rfl rfl rfl rfl rfl rfl rfl rfl rfl rfl rfl (by decide)
    rfl).mpr ⟨rfl, by decide, by decide⟩

theorem rezBoundaryViolation_eq_none_iff : ∀ (cuts : List Cut) (i : Nat),
    rezBoundaryViolation cuts i = none
      ↔ ∀ c ∈ cuts, max |c.1| |c.2.1| = 5000 ∧ max |c.2.2.1| |c.2.2.2| = 5000 := by
  intro cuts
  induction cuts with
  | nil =>
    intro i
    simp [rezBoundaryViolation]
  | cons c rest ih =>
    intro i
    rw [List.forall_mem_cons]
    simp only [rezBoundaryViolation]
    have hb1 : (on_boundary c.1 c.2.1 = true) ↔ max |c.1| |c.2.1| = 5000 := by
      simp [on_boundary]
    have hb2 : (on_boundary c.2.2.1 c.2.2.2 = true)
        ↔ max |c.2.2.1| |c.2.2.2| = 5000 := by
      simp [on_boundary]
    by_cases h1 : on_boundary c.1 c.2.1
    · rw [if_neg (by simp [h1])]
      by_cases h2 : on_boundary c.2.2.1 c.2.2.2
      · rw [if_neg (by simp [h2])]
        rw [ih (i + 1)]
        constructor
        · intro hrest
          exact ⟨⟨hb1.mp h1, hb2.mp h2⟩, hrest⟩
        · intro hand
          exact hand.2
      · rw [if_pos (by simp [h2])]
        constructor
        · intro habs
          cases habs
        · intro hall
          exact absurd (hb2.mpr hall.1.2) h2
    · rw [if_pos (by simp [h1])]
      constructor
      · intro habs
        cases habs
      · intro hall
        exact absurd (hb1.mpr hall.1.1) h1

/-- C7: the REZ checker accepts exactly when the claimed cut count equals
the expected one, every cut endpoint lies exactly on the boundary of the
[-5000, 5000] square, and 1 + N + (number of pairwise cut intersections
strictly inside the square, near-parallel pairs excluded by the near-zero
determinant test in line_intersection) is at least the requested piece
count K read from the input. Stated for any request whose input, expected
and actual files parse successfully (checkers.py lines 144-241). -/
theorem checker_rez_accepts_iff
    (pid input_data expected actual : PyStr)
    (a0 : PyStr) (k en an : Int) (cuts : List Cut)
    (hkK : pyInt (pyStrip input_data) = .ok k)
    (hexp : parseFirstLineInt (splitNL (pyStrip expected)) = .ok en)
    (ha0 : getIdx (splitNL (pyStrip actual)) 0 = .ok a0)
    (han : pyInt (pyStrip a0) = .ok an)
    (hnlen : an + 1 ≤ ((splitNL (pyStrip actual)).length : Int))
    (hcuts : rezParseCuts
      (((splitNL (pyStrip actual)).drop 1).take an.toNat) 1 = .inr cuts) :
    checker_rez pid input_data expected actual = (true, Msg.ok)
      ↔ an = en
        ∧ (∀ c ∈ cuts,
            max |c.1| |c.2.1| = 5000 ∧ max |c.2.2.1| |c.2.2.2| = 5000)
        ∧ k ≤ 1 + an + (countIntersections cuts : Int) := by
  have hALne : splitNL (pyStrip actual) ≠ [] := splitNL_ne_nil _
  have hALpos : 0 < (splitNL (pyStrip actual)).length :=
    List.length_pos.mpr hALne
  have hnolt : ¬ (splitNL (pyStrip actual)).length < 1 := by omega
  simp only [checker_rez, rezBody, hkK, hexp, ha0, han, except_bind_ok,
    except_pure]
  rw [if_neg hnolt]
  by_cases hane : an = en
  · rw [if_neg (by simp [hane] : ¬ an ≠ en),
      if_neg (by omega : ¬ ((splitNL (pyStrip actual)).length : Int) < an + 1)]
    simp only [hcuts]
    rcases hb : rezBoundaryViolation cuts 0 with _ | msg
    · simp only [hb]
      by_cases hp : 1 + an + (countIntersections cuts : Int) < k
      · rw [if_pos hp]
        constructor
        · intro habs
          simp at habs
        · intro hrhs
          exact absurd hrhs.2.2 (by omega)
      · rw [if_neg hp]
        constructor
        · intro _
          exact ⟨hane, (rezBoundaryViolation_eq_none_iff cuts 0).mp hb,
            by omega⟩
        · intro _
          rfl
    · simp only [hb]
      constructor
      · intro habs
        simp at habs
      · intro hrhs
        have hnone := (rezBoundaryViolation_eq_none_iff cuts 0).mpr hrhs.2.1
        rw [hb] at hnone
        cases hnone
  · rw [if_pos hane]
    constructor
    · intro habs
      simp at habs
    · intro hrhs
      exact absurd hrhs.1 hane

unseal Rat.add Rat.mul Rat.sub Rat.inv in
/-- Witness for C7: the sample REZ request (K = 4 pieces requested,
expected N = 2, claimed N = 2 with the two axis cuts, which cross at the
strictly interior point (0, 0)) is accepted, via the iff. -/
theorem checker_rez_accepts_iff_witness :
    checker_rez "rez".data "4".data "2".data
      "2\n-5000 0 5000 0\n0 -5000 0 5000".data = (true, Msg.ok) :=
  (checker_rez_accepts_iff "rez".data "4".data "2".data
    "2\n-5000 0 5000 0\n0 -5000 0 5000".data
    "2".data 4 2 2 [(-5000, 0, 5000, 0), (0, -5000, 0, 5000)]
    rfl rfl rfl rfl (by decide) rfl).mpr
    ⟨rfl, by decide, by decide⟩

theorem buildCount_nonneg : ∀ (m : Nat) (lines : List PyStr) (i : Nat)
    (c0 c : Int × Int × Int → Int), buildCount lines i m c0 = .ok c →
    (∀ u, 0 ≤ c0 u) → ∀ u, 0 ≤ c u := by
  intro m
  induction m with
  | zero =>
    intro lines i c0 c h h0
    simp only [buildCount] at h
    cases h
    exact h0
  | succ mm ih =>
    intro lines i c0 c h h0
    simp only [buildCount] at h
    rcases hl : getIdx lines i with e | l
    · rw [hl] at h
      cases h
    · rw [hl, except_bind_ok] at h
      rcases hu3 : unpack3Int (splitWS l) with e | rgb
      · rw [hu3] at h
        cases h
      · rw [hu3, except_bind_ok] at h
        rcases hri : pyIdx256 rgb.1 with e | ri
        · rw [hri] at h
          cases h
        · rw [hri, except_bind_ok] at h
          rcases hgi : pyIdx256 rgb.2.1 with e | gi
          · rw [hgi] at h
            cases h
          · rw [hgi, except_bind_ok] at h
            rcases hbi : pyIdx256 rgb.2.2 with e | bi
            · rw [hbi] at h
              cases h
            · rw [hbi, except_bind_ok] at h
              refine ih lines (i + 1) _ c h (fun u => ?_)
              by_cases hut : u = (ri, gi, bi)
              · subst hut
                simp only [updCnt, if_pos rfl]
                have := h0 (ri, gi, bi)
                omega
              · simp only [updCnt, if_neg hut]
                exact h0 u

theorem pasteleLoop_spec : ∀ (lines : List PyStr)
    (claimed : List (Int × Int × Int)) (i : Nat) (st st2 : PasteleState),
    lines.map crayonLineTriple = claimed.map some →
    pasteleLoop lines i st = .ok (.inr st2) →
    (∀ u, st2.cnt u = st.cnt u - (claimed.count u : Int))
    ∧ ((∀ u, 0 ≤ st.cnt u) → ∀ u, 0 ≤ st2.cnt u)
    ∧ st2.max_r = (claimed.map fun t => t.1).foldl max st.max_r
    ∧ st2.min_r = (claimed.map fun t => t.1).foldl min st.min_r
    ∧ st2.max_g = (claimed.map fun t => t.2.1).foldl max st.max_g
    ∧ st2.min_g = (claimed.map fun t => t.2.1).foldl min st.min_g
    ∧ st2.max_b = (claimed.map fun t => t.2.2).foldl max st.max_b
    ∧ st2.min_b = (claimed.map fun t => t.2.2).foldl min st.min_b := by
  intro lines
  induction lines with
  | nil =>
    intro claimed i st st2 hp h
    cases claimed with
    | nil =>
      simp only [pasteleLoop, except_pure, Except.ok.injEq,
        Sum.inr.injEq] at h
      subst h
      refine ⟨fun u => by simp, fun h0 => h0, by simp, by simp, by simp,
        by simp, by simp, by simp⟩
    | cons t crest => simp at hp
  | cons l rest ih =>
    intro claimed i st st2 hp h
    cases claimed with
    | nil => simp at hp
    | cons t crest =>
      simp only [List.map_cons, List.cons.injEq] at hp
      obtain ⟨h1, h2⟩ := hp
      simp only [crayonLineTriple] at h1
      rcases hs : splitWS (pyStrip l) with _ | ⟨p0, _ | ⟨p1, _ | ⟨p2, _ | ⟨p3, ps⟩⟩⟩⟩
      · rw [hs] at h1
        exact Option.noConfusion h1
      · rw [hs] at h1
        exact Option.noConfusion h1
      · rw [hs] at h1
        exact Option.noConfusion h1
      case cons.cons.intro.cons.cons.cons.cons =>
        rw [hs] at h1
        exact Option.noConfusion h1
      rw [hs] at h1
      simp only [pasteleLoop, hs] at h
      rcases hr : pyInt p0 with e | r
      · rw [hr, except_bind_err] at h
        cases h
      · rw [hr, except_bind_ok] at h
        rcases hg : pyInt p1 with e | g
        · rw [hg, except_bind_err] at h
          cases h
        · rw [hg, except_bind_ok] at h
          rcases hb : pyInt p2 with e | b
          · rw [hb, except_bind_err] at h
            cases h
          · rw [hb, except_bind_ok] at h
            simp only [hr, hg, hb, Option.some.injEq] at h1
            subst h1
            by_cases hrange : 0 ≤ r ∧ r < 256 ∧ 0 ≤ g ∧ g < 256 ∧ 0 ≤ b ∧ b < 256
            · rw [if_pos hrange] at h
              by_cases hc0 : st.cnt (r, g, b) ≤ 0
              · rw [if_pos hc0] at h
                exact Sum.noConfusion (Except.ok.inj h)
              · rw [if_neg hc0] at h
                have hI := ih crest (i + 1) _ st2 h2 h
                refine ⟨fun u => ?_, fun h0 u => ?_, ?_, ?_, ?_, ?_, ?_, ?_⟩
                · have hIc := hI.1 u
                  by_cases hu : u = (r, g, b)
                  · subst hu
                    simp only [updCnt, if_pos rfl] at hIc
                    rw [hIc]
                    simp [List.count_cons]
                    omega
                  · simp only [updCnt, if_neg hu] at hIc
                    rw [hIc]
                    have hne : ((r, g, b) : Int × Int × Int) ≠ u :=
                      fun hh => hu hh.symm
                    simp [List.count_cons, hne]
                · refine hI.2.1 (fun v => ?_) u
                  by_cases hv : v = (r, g, b)
                  · subst hv
                    simp only [updCnt, if_pos rfl]
                    omega
                  · simp only [updCnt, if_neg hv]
                    exact h0 v
                · rw [hI.2.2.1]
                  simp
                · rw [hI.2.2.2.1]
                  simp
                · rw [hI.2.2.2.2.1]
                  simp
                · rw [hI.2.2.2.2.2.1]
                  simp
                · rw [hI.2.2.2.2.2.2.1]
                  simp
                · rw [hI.2.2.2.2.2.2.2]
                  simp
            · rw [if_neg hrange] at h
              exact Sum.noConfusion (Except.ok.inj h)

/-- C6: the PASTELE checker rejects every output that claims a crayon
triple absent from the input counting array or reuses a triple more
times than its multiplicity there, and rejects every output whose
claimed colorfulness differs from the maximum per-channel extent
difference recomputed over the claimed crayons. Stated for any request
whose input, expected and actual files parse successfully
(checkers.py lines 70-141). -/
theorem checker_pastele_rejects
    (pid input_data expected actual : PyStr)
    (l0 a0 : PyStr) (n k ec ac : Int)
    (cnt : Int × Int × Int → Int)
    (claimed : List (Int × Int × Int))
    (h0 : getIdx (splitNL (pyStrip input_data)) 0 = .ok l0)
    (hnk : unpack2Int (splitWS l0) = .ok (n, k))
    (hcnt : buildCount (splitNL (pyStrip input_data)) 1 n.toNat
      (fun _ => 0) = .ok cnt)
    (hexp : parseFirstLineInt (splitNL (pyStrip expected)) = .ok ec)
    (ha0 : getIdx (splitNL (pyStrip actual)) 0 = .ok a0)
    (hac : pyInt (pyStrip a0) = .ok ac)
    (hparse : (((splitNL (pyStrip actual)).drop 1).take k.toNat).map
      crayonLineTriple = claimed.map some)
    (hbad : (∃ t, cnt t < (claimed.count t : Int))
      ∨ computedColorfulness claimed ≠ ac) :
    checker_pastele pid input_data expected actual ≠ (true, Msg.ok) := by
  intro hacc
  have hALne : splitNL (pyStrip actual) ≠ [] := splitNL_ne_nil _
  have hALpos : 0 < (splitNL (pyStrip actual)).length :=
    List.length_pos.mpr hALne
  have hnolt : ¬ (splitNL (pyStrip actual)).length < 1 := by omega
  rcases hbody : pasteleBody input_data expected actual with e | r
  · simp [checker_pastele, hbody] at hacc
  · simp only [checker_pastele, hbody] at hacc
    subst hacc
    simp only [pasteleBody, h0, hnk, hcnt, hexp, ha0, hac,
      except_bind_ok, except_pure] at hbody
    rw [if_neg hnolt] at hbody
    by_cases hace : ac = ec
    · rw [if_neg (by simp [hace] : ¬ ac ≠ ec)] at hbody
      by_cases hklen : ((splitNL (pyStrip actual)).length : Int) < k + 1
      · rw [if_pos hklen] at hbody
        simp at hbody
      · rw [if_neg hklen] at hbody
        rcases hres : pasteleLoop
            (((splitNL (pyStrip actual)).drop 1).take k.toNat) 1
            { cnt := cnt, min_r := 256, max_r := -1, min_g := 256,
              max_g := -1, min_b := 256, max_b := -1 } with e2 | r2
        · rw [hres, except_bind_err] at hbody
          cases hbody
        · rw [hres, except_bind_ok] at hbody
          rcases r2 with m | st
          · simp at hbody
          · by_cases hcc : max (st.max_r - st.min_r)
                (max (st.max_g - st.min_g) (st.max_b - st.min_b)) ≠ ac
            · simp [hcc] at hbody
            · push_neg at hcc
              have hspec := pasteleLoop_spec
                (((splitNL (pyStrip actual)).drop 1).take k.toNat) claimed 1
                { cnt := cnt, min_r := 256, max_r := -1, min_g := 256,
                  max_g := -1, min_b := 256, max_b := -1 } st hparse hres
              have hnn : ∀ u, (0 : Int) ≤ cnt u :=
                buildCount_nonneg n.toNat (splitNL (pyStrip input_data)) 1
                  (fun _ => 0) cnt hcnt (fun _ => le_refl 0)
              rcases hbad with ⟨t, ht⟩ | hcol
              · have heq := hspec.1 t
                have hpos := hspec.2.1 hnn t
                simp only at heq
                omega
              · apply hcol
                rw [← hcc]
                simp only [computedColorfulness]
                rw [hspec.2.2.1, hspec.2.2.2.1, hspec.2.2.2.2.1,
                  hspec.2.2.2.2.2.1, hspec.2.2.2.2.2.2.1,
                  hspec.2.2.2.2.2.2.2]
    · rw [if_pos hace] at hbody
      simp at hbody

/-- Witness for C6: the sample PASTELE request (4 input crayons, one of
each listed colour, K = 2) whose output claims colorfulness 10 but uses
crayon (0, 0, 0) twice while the input has it only once is rejected. -/
theorem checker_pastele_rejects_witness :
    checker_pastele "pastele".data
      "4 2\n0 0 0\n10 10 10\n100 100 100\n200 200 200".data
      "10".data "10\n0 0 0\n0 0 0".data ≠ (true, Msg.ok) :=
  checker_pastele_rejects "pastele".data
    "4 2\n0 0 0\n10 10 10\n100 100 100\n200 200 200".data
    "10".data "10\n0 0 0\n0 0 0".data
    "4 2".data "10".data 4 2 10 10
    (updCnt (updCnt (updCnt (updCnt (fun _ => 0) (0, 0, 0) 1)
      (10, 10, 10) 1) (100, 100, 100) 1) (200, 200, 200) 1)
    [(0, 0, 0), (0, 0, 0)]
    rfl rfl rfl rfl rfl rfl rfl
    (Or.inl ⟨(0, 0, 0), by decide⟩)

end OIGrading
